import Mathlib

/-!
# pxtone-renderer: command-line resolution and batch driver

A shallow embedding of `src/main.cpp`: the argument grammar (`KnownArg`,
`findArgument`), the resolver `parseArguments`, the tokenizer at the top of
`main`, the batch loop of `main`, and the pipeline `decode`.

Conventions of the embedding.

* `std::string` is `String`; character-level code works on `String.data`.
* `std::map<std::string, std::string>` is an association list restricted to the
  two operations the program uses, `insert` (which keeps an existing entry)
  and `find`.
* `std::set<std::filesystem::path>` is a list kept sorted and duplicate-free
  by the ordering of `std::filesystem::path`, which is a parameter of the
  model (`pathCompare`).
* The globals `config`, `files` and the console are the fields of `World`.
* Dereferencing `args.end()` is undefined behaviour; the model reports it as
  `Fault.readPastEnd`.
* `std::filesystem::absolute` and `std::filesystem::exists` can throw
  `std::filesystem::filesystem_error`; their results are `Option` values, and
  an exception that leaves `main` is reported as `Fault.uncaught`.
* `decode` talks to the C library and to the engine; what each of its calls
  reports is a parameter (`Answers`), and a run is recorded as the list of the
  calls made and the resources still held (`Job`).
-/

namespace PxtoneRenderer

/-! ## Data model -/

/-- The output container, `Config::format`. The enumeration of the source has
the two encoders the program selects, `Config::OGG` and `Config::WAV`. -/
inductive Format where
  | OGG
  | WAV
deriving DecidableEq, Repr

/-- The process-wide settings record `config`. -/
structure Config where
  format : Format
  toStdout : Bool
deriving DecidableEq, Repr

/-- Severity argument of the logging entry point. -/
inductive LogState where
  | Error
  | Warning
  | Info
deriving DecidableEq, Repr

/-- One call of the logging entry point, as recorded on the console:
`usage` is the call without arguments, `message text state` a call with a
text. -/
inductive LogCall where
  | usage
  | message (text : String) (state : LogState)
deriving DecidableEq, Repr

/-- The mutable state of the process: the globals `config` and `files`, the
console, and the paths `decode` has been invoked on (in call order). -/
structure World where
  config : Config
  files : List String
  console : List LogCall
  decoded : List String
deriving DecidableEq, Repr

/-- The state at process start: format OGG, no stdout, no files, nothing
logged, nothing decoded. -/
def World.initial : World :=
  { config := { format := Format.OGG, toStdout := false },
    files := [], console := [], decoded := [] }

/-- How a run can leave the course the program defines. `readPastEnd` is the
undefined behaviour of dereferencing `args.end()`. `uncaught decoded` is an
exception that leaves `main` (a `std::filesystem::filesystem_error`, which the
handler `catch (std::string err)` does not catch): the process ends through
`std::terminate`, after `decode` has been called on the paths `decoded`. -/
inductive Fault where
  | readPastEnd
  | uncaught (decoded : List String)
deriving DecidableEq, Repr

/-- Modelled from the spec: `logToConsole(text, state)` of `global.h`, which is
not among the source files. It emits one record and signals an error by
returning false ("errors cause the calling context to stop short
(return-false-style signaling), warnings and info do not"). -/
def logToConsole (text : String) (state : LogState) (w : World) : Bool × World :=
  (decide (state ≠ LogState.Error),
   { w with console := w.console ++ [LogCall.message text state] })

/-- Modelled from the spec: the call `logToConsole()` without arguments of
`global.h`, which is not among the source files. It prints the usage text and
returns false, so that the caller skips all processing. -/
def logUsage (w : World) : Bool × World :=
  (false, { w with console := w.console ++ [LogCall.usage] })

/-! ## Argument grammar -/

/-- A recognised flag: `keyMatches` is the `std::set` of its spellings in
iteration (ascending) order. -/
structure KnownArg where
  keyMatches : List String
  takesParameter : Bool
deriving DecidableEq, Repr

/-- `KnownArg::empty`: no spelling is a non-empty string. -/
def KnownArg.empty (a : KnownArg) : Bool :=
  a.keyMatches.all fun it => it.isEmpty

def argHelp : KnownArg := { keyMatches := ["--help", "-h"], takesParameter := false }

def argStdout : KnownArg := { keyMatches := ["--stdout"], takesParameter := false }

def argFormat : KnownArg := { keyMatches := ["--format", "-f"], takesParameter := true }

def knownArguments : List KnownArg := [argHelp, argStdout, argFormat]

/-- `findArgument`: the last entry of `knownArguments` that has `key` among its
spellings, or the default-constructed `KnownArg` when there is none. -/
def findArgument (key : String) : KnownArg :=
  knownArguments.foldl
    (fun found it => if key ∈ it.keyMatches then it else found)
    { keyMatches := [], takesParameter := false }

/-! ## Containers -/

/-- `std::map::find`, giving the mapped value. -/
def mapFind (key : String) : List (String × String) → Option String
  | [] => none
  | (k, v) :: m => if k = key then some v else mapFind key m

/-- `std::map::insert`: a key that is already present keeps its value. -/
def mapInsert (arg : String × String) (m : List (String × String)) :
    List (String × String) :=
  match mapFind arg.1 m with
  | some _ => m
  | none => m ++ [arg]

/-- `std::set<std::filesystem::path>::insert` on the sorted list of elements;
`pathCompare` is the ordering of `std::filesystem::path`. -/
def setInsert (pathCompare : String → String → Ordering) (p : String) :
    List String → List String
  | [] => [p]
  | q :: qs =>
    match pathCompare p q with
    | Ordering.lt => p :: q :: qs
    | Ordering.eq => q :: qs
    | Ordering.gt => q :: setInsert pathCompare p qs

/-! ## Strings -/

/-- The test `*it->begin() == '-'`. For an empty token `begin()` points at the
terminating NUL of the string, which is not `'-'`. -/
def startsWithDash (s : String) : Bool :=
  match s.data with
  | c :: _ => decide (c = '-')
  | [] => false

/-- `std::toupper` in the "C" locale: the letters `a`..`z` are mapped to
`A`..`Z`, every other character is unchanged. -/
def toupper (c : Char) : Char :=
  if 'a' ≤ c ∧ c ≤ 'z' then Char.ofNat (c.toNat - 32) else c

/-- The `std::transform(..., toupper)` of the format value. -/
def upper (s : String) : String :=
  String.mk (s.data.map toupper)

/-! ## Tokenizer (the first loop of `main`) -/

/-- `std::replace(str.begin(), str.end(), '=', ' ')`. -/
def replaceEquals (cs : List Char) : List Char :=
  cs.map fun c => if c = '=' then ' ' else c

/-- The loop `while (getline(ss, str, ' ')) args.push_back(str);` over the
characters left in the stream. `cur` is what the running `getline` call has
extracted so far. A space ends the call and pushes `cur`, empty or not; at the
end of the stream a call that extracted something pushes it, and a call that
extracted nothing fails and ends the loop. -/
def getlines : List Char → List Char → List String
  | [], cur => if cur.isEmpty then [] else [String.mk cur]
  | c :: cs, cur =>
    if c = ' ' then String.mk cur :: getlines cs [] else getlines cs (cur ++ [c])

/-- The tokens one raw argument `argv[i]` contributes to `args`. -/
def splitArgument (str : String) : List String :=
  getlines (replaceEquals str.data) []

/-- The vector `args` built from the raw arguments `argv[1]`, ..,
`argv[argc-1]`. -/
def tokenize : List String → List String
  | [] => []
  | str :: rest => splitArgument str ++ tokenize rest

/-! ## The resolver `parseArguments` -/

/-- How the classification loop of `parseArguments` ends: it runs to the end
of `args`, or it leaves the function through `return logToConsole(...)`, or it
dereferences `args.end()`. -/
inductive Scan where
  | completed (argData : List (String × String)) (w : World)
  | returned (result : Bool × World)
  | fault (f : Fault)
deriving DecidableEq, Repr

/-- The classification loop of `parseArguments` (the `for` over `args` with
its inner `while`), from the token `it` points at. One step is one iteration
of the `for`: a token starting with `-` is looked up; a flag that takes a
parameter advances `it` once more and reads the token there, which is past the
end when the flag was the last token; any other token is a file. Every
iteration ends with `argData.insert(arg)`. -/
def scan (pathCompare : String → String → Ordering) :
    List String → List (String × String) → World → Scan
  | [], argData, w => Scan.completed argData w
  | it :: rest, argData, w =>
    if startsWithDash it then
      if !(findArgument it).empty then
        if (findArgument it).takesParameter then
          match rest with
          | [] => Scan.fault Fault.readPastEnd
          | next :: rest' =>
            if startsWithDash next then
              Scan.returned
                (logToConsole ("Argument '" ++ it ++ "' requires a parameter.")
                  LogState.Error w)
            else scan pathCompare rest' (mapInsert (it, next) argData) w
        else scan pathCompare rest (mapInsert (it, "") argData) w
      else
        Scan.returned (logToConsole ("Unknown argument '" ++ it ++ "'") LogState.Error w)
    else
      scan pathCompare rest (mapInsert ("", "") argData)
        { w with files := setInsert pathCompare it w.files }

/-- The loop over `argHelp.keyMatches`: whether some help spelling is a key of
`argData`. -/
def helpFound (argData : List (String × String)) : List String → Bool
  | [] => false
  | it :: its =>
    match mapFind it argData with
    | none => helpFound argData its
    | some _ => true

/-- The loop over `argStdout.keyMatches`: `Except.error` is the early
`return logToConsole(...)`, `Except.ok` the state the function goes on with. -/
def stdoutLoop (argData : List (String × String)) :
    List String → World → Except (Bool × World) World
  | [], w => Except.ok w
  | it :: its, w =>
    match mapFind it argData with
    | none => stdoutLoop argData its w
    | some _ =>
      if w.files.length > 1 then
        Except.error
          (logToConsole "Standard output cannot be used when rendering multiple files."
            LogState.Error w)
      else stdoutLoop argData its { w with config := { w.config with toStdout := true } }

/-- The body of the format loop for a spelling found with the non-empty value
`second`. -/
def applyFormat (second : String) (w : World) : World :=
  if upper second = "OGG" then { w with config := { w.config with format := Format.OGG } }
  else if upper second = "WAV" then
    { w with config := { w.config with format := Format.WAV } }
  else if upper second = "FLAC" then
    { w with config := { w.config with format := Format.WAV } }
  else
    (logToConsole ("Unknown format type '" ++ second ++ "'; Resorting to OGG")
      LogState.Warning w).2

/-- The loop over `argFormat.keyMatches`. -/
def formatLoop (argData : List (String × String)) : List String → World → World
  | [], w => w
  | it :: its, w =>
    match mapFind it argData with
    | none => formatLoop argData its w
    | some second =>
      if second.isEmpty then formatLoop argData its w
      else formatLoop argData its (applyFormat second w)

/-- The validation that follows the classification loop, in the order of the
source: help, stdout, format; then `return true`. -/
def validate (argData : List (String × String)) (w : World) : Bool × World :=
  if helpFound argData argHelp.keyMatches then logUsage w
  else
    match stdoutLoop argData argStdout.keyMatches w with
    | Except.error result => result
    | Except.ok w1 => (true, formatLoop argData argFormat.keyMatches w1)

/-- `parseArguments(args)`: the returned flag and the state it leaves, or the
fault it runs into. -/
def parseArguments (pathCompare : String → String → Ordering) (args : List String)
    (w : World) : Except Fault (Bool × World) :=
  match scan pathCompare args [] w with
  | Scan.completed argData w1 => Except.ok (validate argData w1)
  | Scan.returned result => Except.ok result
  | Scan.fault f => Except.error f

/-! ## The environment of `main.cpp` -/

/-- What `decode` can throw: the value built by `GetError::file`,
`GetError::generic` or `GetError::pxtone` (from a text, or from an engine
error code) out of its argument. -/
inductive Thrown where
  | file (text : String)
  | generic (text : String)
  | pxtone (text : String)
  | pxtoneErr (err : Nat)
deriving DecidableEq, Repr

/-- What the calls made by one run of `decode` report: whether `fopen` gives a
handle, the size `ftell` reports, whether `malloc` gives a buffer, the count
`fread` returns, the `pxtnERR` codes of `init`, `read` and `tones_ready`
(0 is `pxtnOK`), and the flags `set_destination_quality`, `set_memory_r` and
`moo_preparation` return. -/
structure Answers where
  fopenOk : Bool
  size : Nat
  mallocOk : Bool
  freadCount : Nat
  initErr : Nat
  qualityOk : Bool
  memoryOk : Bool
  readErr : Nat
  tonesReadyErr : Nat
  mooPreparationOk : Bool
deriving DecidableEq, Repr

/-- Everything one run takes from outside `main.cpp`. `pathCompare` orders
`std::filesystem::path` values; `absolute` and `pathExists` are
`std::filesystem::absolute` and `std::filesystem::exists`, with `none` for a
call that throws `std::filesystem::filesystem_error`; `filename` is
`path::filename`; `answers path` is what the calls of `decode(path)` report;
`channelCount` and `sampleRate` are the constants `CHANNEL_COUNT` and
`SAMPLE_RATE`; `getError` is the text of a thrown value, which `main` catches
as a `std::string`. -/
structure Env where
  pathCompare : String → String → Ordering
  absolute : String → Option String
  pathExists : String → Option Bool
  filename : String → String
  answers : String → Answers
  channelCount : Nat
  sampleRate : Nat
  getError : Thrown → String

/-! ## The decode pipeline `decode` -/

/-- The calls `decode` can make on its collaborators: the C file interface,
the allocator, the engine `pxtnService` with its descriptor, and the logger.
The last two are the calls of a render-and-encode stage: `moo` pulls a block of
PCM samples from the engine, `encode` hands a block to an encoder of
`encoder.h`. -/
inductive Call where
  | fopen
  | fseek
  | ftell
  | malloc
  | rewind
  | fread
  | fclose
  | newService
  | init
  | setDestinationQuality
  | setMemoryR
  | read
  | tonesReady
  | mooPreparation
  | evelsRelease
  | logInfo
  | moo
  | encode
deriving DecidableEq, Repr

/-- What `decode` acquires: the `FILE*` of `fopen`, the buffer of `malloc`,
the engine of `new pxtnService()`. -/
inductive Resource where
  | handle
  | buffer
  | engine
deriving DecidableEq, Repr

/-- The record of one run of `decode`: the calls made, in order, and the
resources acquired and not released. -/
structure Job where
  calls : List Call
  held : List Resource
deriving DecidableEq, Repr

def Job.call (j : Job) (c : Call) : Job :=
  { j with calls := j.calls ++ [c] }

def Job.acquire (j : Job) (r : Resource) : Job :=
  { j with held := j.held ++ [r] }

def Job.release (j : Job) (r : Resource) : Job :=
  { j with held := j.held.erase r }

/-- `decode(file)`: the record of the run, and either the value thrown or the
text of the informational record logged at the end. Statement by statement:
`fopen` and its null check; `fseek`, `ftell`, `malloc` and its null check;
`rewind`, `fread` and its count check; `fclose`; `new pxtnService()`, `init`;
`set_destination_quality`; `set_memory_r`; `read`; `tones_ready`;
`moo_preparation`; `evels->Release()`; `logToConsole`. The function has no
`free` and no `delete`. -/
def decode (env : Env) (a : Answers) (file : String) : Job × Except Thrown String :=
  let j1 := Job.call { calls := [], held := [] } Call.fopen
  if !a.fopenOk then
    (j1, Except.error (Thrown.file
      ("Error opening file " ++ file ++ ". The file may not be readable to your user.")))
  else
    let j2 := (((j1.acquire Resource.handle).call Call.fseek).call Call.ftell).call Call.malloc
    if !a.mallocOk then
      (j2, Except.error (Thrown.generic ("Error allocating " ++ toString a.size ++ " bytes.")))
    else
      let j3 := ((j2.acquire Resource.buffer).call Call.rewind).call Call.fread
      if a.freadCount != a.size then
        (j3, Except.error (Thrown.file "Bytes read does not match file size."))
      else
        let j4 := ((((j3.call Call.fclose).release Resource.handle).call Call.newService).acquire
          Resource.engine).call Call.init
        if a.initErr != 0 then (j4, Except.error (Thrown.pxtoneErr a.initErr))
        else
          let j5 := j4.call Call.setDestinationQuality
          if !a.qualityOk then
            (j5, Except.error (Thrown.pxtone
              ("Could not set destination quality: " ++ toString env.channelCount ++
                " channels, " ++ toString env.sampleRate ++ "Hz.")))
          else
            let j6 := j5.call Call.setMemoryR
            if !a.memoryOk then
              (j6, Except.error (Thrown.pxtone
                ("Could not set pxtone memory blob of size " ++ toString a.size)))
            else
              let j7 := j6.call Call.read
              if a.readErr != 0 then (j7, Except.error (Thrown.pxtoneErr a.readErr))
              else
                let j8 := j7.call Call.tonesReady
                if a.tonesReadyErr != 0 then
                  (j8, Except.error (Thrown.pxtoneErr a.tonesReadyErr))
                else
                  let j9 := j8.call Call.mooPreparation
                  if !a.mooPreparationOk then
                    (j9, Except.error (Thrown.pxtone "I Have No Mouth, and I Must Moo"))
                  else
                    ((j9.call Call.evelsRelease).call Call.logInfo,
                     Except.ok ("Successfully opened file " ++ env.filename file ++ ", " ++
                       toString a.size ++ " bytes read."))

/-! ## The batch loop of `main` -/

/-- The record an iteration of the loop over `files` leaves on the console
when `absolute` and `exists` return: `path` is the absolute path and `present`
the answer of `exists`. It is the informational record of a `decode` that
completes, the caught text of one that throws, or the warning for a path that
does not exist. -/
def fileRecord (env : Env) (it path : String) (present : Bool) : LogCall :=
  if present then
    match (decode env (env.answers path) path).2 with
    | Except.ok info => LogCall.message info LogState.Info
    | Except.error err => LogCall.message (env.getError err) LogState.Error
  else LogCall.message ("File " ++ it ++ " not found.") LogState.Warning

/-- One iteration of the loop over `files`. The calls
`std::filesystem::absolute(it)` (the initialiser of the local `absolute`) and
`std::filesystem::exists(it)` (the condition of the `if`) stand outside the
`try`; only `decode(std::filesystem::absolute(it))` is inside it, and the
handler catches a `std::string` only. -/
def runFile (env : Env) (it : String) (w : World) : Except Fault World :=
  match env.absolute it with
  | none => Except.error (Fault.uncaught w.decoded)
  | some path =>
    match env.pathExists it with
    | none => Except.error (Fault.uncaught w.decoded)
    | some true =>
      match (decode env (env.answers path) path).2 with
      | Except.ok info =>
        Except.ok
          (logToConsole info LogState.Info { w with decoded := w.decoded ++ [path] }).2
      | Except.error err =>
        Except.ok
          (logToConsole (env.getError err) LogState.Error
            { w with decoded := w.decoded ++ [path] }).2
    | some false =>
      Except.ok (logToConsole ("File " ++ it ++ " not found.") LogState.Warning w).2

/-- The loop `for (auto it : files)` of `main`. -/
def runAll (env : Env) : List String → World → Except Fault World
  | [], w => Except.ok w
  | it :: its, w =>
    match runFile env it w with
    | Except.error f => Except.error f
    | Except.ok w1 => runAll env its w1

/-- The conversion of the flag `logToConsole` returns to the `int` that `main`
returns. -/
def exitCode (b : Bool) : Nat :=
  if b then 1 else 0

/-- `main`, on the raw arguments `argv[1]`, .., `argv[argc-1]` (so
`argc <= 1` is `argv = []`): the exit status and the final state. -/
def main (env : Env) (argv : List String) (w : World) : Except Fault (Nat × World) :=
  match argv with
  | [] =>
    Except.ok
      (exitCode (logToConsole "At least 1 .ptcop file is required." LogState.Error w).1,
       (logToConsole "At least 1 .ptcop file is required." LogState.Error w).2)
  | _ :: _ =>
    match parseArguments env.pathCompare (tokenize argv) w with
    | Except.error f => Except.error f
    | Except.ok (false, w1) => Except.ok (0, w1)
    | Except.ok (true, w1) =>
      match runAll env w1.files w1 with
      | Except.error f => Except.error f
      | Except.ok w2 => Except.ok (0, w2)

/-! ## Vocabulary of the properties -/

/-- The tokens of `args` that stand in flag position and do not start with
`-`, reading left to right: the token after `--format` or `-f` is that flag's
value and is passed over. -/
def fileTokens : List String → List String
  | [] => []
  | t :: rest =>
    if t = "--format" ∨ t = "-f" then
      match rest with
      | [] => []
      | _ :: rest' => fileTokens rest'
    else if startsWithDash t then fileTokens rest
    else t :: fileTokens rest

/-- The format a recognised value stands for: `v` selects `f`. -/
def Selects (v : String) (f : Format) : Prop :=
  (upper v = "OGG" ∧ f = Format.OGG) ∨
    ((upper v = "WAV" ∨ upper v = "FLAC") ∧ f = Format.WAV)

/-- The characters of a list of texts, one text after the other. -/
def concatTokens : List String → List Char
  | [] => []
  | t :: ts => t.data ++ concatTokens ts

/-- The calls of a run of `decode` in which every step succeeds, in order. -/
def fullRun : List Call :=
  [Call.fopen, Call.fseek, Call.ftell, Call.malloc, Call.rewind, Call.fread, Call.fclose,
   Call.newService, Call.init, Call.setDestinationQuality, Call.setMemoryR, Call.read,
   Call.tonesReady, Call.mooPreparation, Call.evelsRelease, Call.logInfo]

/-- The steps of `decode` that can report failure, in order, each with whether
it does so under the answers `a`. -/
def failures (a : Answers) : List (Call × Bool) :=
  [(Call.fopen, !a.fopenOk), (Call.malloc, !a.mallocOk), (Call.fread, a.freadCount != a.size),
   (Call.init, a.initErr != 0), (Call.setDestinationQuality, !a.qualityOk),
   (Call.setMemoryR, !a.memoryOk), (Call.read, a.readErr != 0),
   (Call.tonesReady, a.tonesReadyErr != 0), (Call.mooPreparation, !a.mooPreparationOk)]

/-- The first step that reports failure under `a`, if any. -/
def firstFailure (a : Answers) : Option Call :=
  ((failures a).find? fun p => p.2).map fun p => p.1

/-- The calls of `order` up to and including the first occurrence of `c`. -/
def upTo (c : Call) : List Call → List Call
  | [] => []
  | x :: xs => if x = c then [x] else x :: upTo c xs

/-! ## A sample environment for concrete runs -/

/-- Lexicographic comparison of two texts by character code. On paths of a
single component it agrees with the ordering of `std::filesystem::path`. -/
def compareChars : List Char → List Char → Ordering
  | [], [] => Ordering.eq
  | [], _ :: _ => Ordering.lt
  | _ :: _, [] => Ordering.gt
  | a :: as, b :: bs =>
    if a.toNat < b.toNat then Ordering.lt
    else if b.toNat < a.toNat then Ordering.gt
    else compareChars as bs

def comparePlain (p q : String) : Ordering :=
  compareChars p.data q.data

/-- Answers of a run of `decode` in which every call succeeds on a file of
`size` bytes. -/
def Answers.sound (size : Nat) : Answers :=
  { fopenOk := true, size := size, mallocOk := true, freadCount := size, initErr := 0,
    qualityOk := true, memoryOk := true, readErr := 0, tonesReadyErr := 0,
    mooPreparationOk := true }

/-- The text of a thrown value in the sample environment. -/
def Thrown.text : Thrown → String
  | Thrown.file text => text
  | Thrown.generic text => text
  | Thrown.pxtone text => text
  | Thrown.pxtoneErr err => "pxtone error " ++ toString err

/-- An environment in which `absolute` throws on the empty path (as the
libstdc++ implementation does) and leaves every other path as it is, every
path but `missing.ptcop` exists, `broken.ptcop` is rejected by the engine's
`read`, and every other file of 64 bytes decodes. -/
def Env.sample : Env :=
  { pathCompare := comparePlain,
    absolute := fun p => if p = "" then none else some p,
    pathExists := fun p => some (p != "missing.ptcop"),
    filename := fun p => p,
    answers := fun p =>
      if p = "broken.ptcop" then { Answers.sound 64 with readErr := 3 } else Answers.sound 64,
    channelCount := 2,
    sampleRate := 44100,
    getError := Thrown.text }

/-! ## The argument grammar -/

theorem findArgument_eq (it : String) :
    findArgument it =
      if it = "--format" ∨ it = "-f" then argFormat
      else if it = "--stdout" then argStdout
      else if it = "--help" ∨ it = "-h" then argHelp
      else { keyMatches := [], takesParameter := false } := by
  unfold findArgument knownArguments
  simp only [List.foldl, argHelp, argStdout, argFormat, List.mem_cons, List.mem_singleton,
    List.not_mem_nil, or_false]

theorem argFormat_empty : argFormat.empty = false := by decide

theorem argStdout_empty : argStdout.empty = false := by decide

theorem argHelp_empty : argHelp.empty = false := by decide

theorem findArgument_empty_iff (it : String) :
    (findArgument it).empty = false ↔
      (it = "--help" ∨ it = "-h" ∨ it = "--stdout" ∨ it = "--format" ∨ it = "-f") := by
  rw [findArgument_eq]
  by_cases h1 : it = "--format" ∨ it = "-f"
  · simp only [h1, if_true, argFormat_empty, true_iff]; tauto
  · by_cases h2 : it = "--stdout"
    · simp only [h1, h2, if_false, if_true, argStdout_empty, true_iff]; tauto
    · by_cases h3 : it = "--help" ∨ it = "-h"
      · simp only [h1, h2, h3, if_false, if_true, argHelp_empty, true_iff]; tauto
      · simp only [h1, h2, h3, if_false]
        constructor
        · intro h; simp [KnownArg.empty] at h
        · intro h; exfalso; tauto

theorem findArgument_takes_iff (it : String) :
    (findArgument it).takesParameter = true ↔ (it = "--format" ∨ it = "-f") := by
  rw [findArgument_eq]
  by_cases h1 : it = "--format" ∨ it = "-f"
  · simp [h1, argFormat]
  · by_cases h2 : it = "--stdout"
    · simp [h1, h2, argStdout]
    · by_cases h3 : it = "--help" ∨ it = "-h"
      · simp [h1, h2, h3, argHelp]
      · simp [h1, h2, h3]

theorem startsWithDash_format : startsWithDash "--format" = true := by decide

theorem startsWithDash_f : startsWithDash "-f" = true := by decide

theorem startsWithDash_ne_empty {t : String} (h : startsWithDash t = true) : t ≠ "" := by
  intro h0
  rw [h0] at h
  exact absurd h (by decide)

/-! ## The map `argData` -/

theorem mapFind_append (k : String) (m : List (String × String)) (a : String × String) :
    mapFind k (m ++ [a]) =
      match mapFind k m with
      | some v => some v
      | none => if a.1 = k then some a.2 else none := by
  induction m with
  | nil => simp [mapFind]
  | cons x m ih =>
    obtain ⟨xk, xv⟩ := x
    by_cases h : xk = k
    · simp [mapFind, h]
    · simp [mapFind, h, ih]

theorem mapFind_mapInsert_some {k v : String} (a : String × String)
    {m : List (String × String)} (h : mapFind k m = some v) :
    mapFind k (mapInsert a m) = some v := by
  unfold mapInsert
  cases ha : mapFind a.1 m with
  | some x => simpa using h
  | none => simp [mapFind_append, h]

theorem mapFind_mapInsert_new {k v : String} {m : List (String × String)}
    (h : mapFind k m = none) : mapFind k (mapInsert (k, v) m) = some v := by
  unfold mapInsert
  simp [h, mapFind_append]

theorem mapFind_mapInsert_ne {k : String} (a : String × String) {m : List (String × String)}
    (hne : a.1 ≠ k) : mapFind k (mapInsert a m) = mapFind k m := by
  unfold mapInsert
  cases ha : mapFind a.1 m with
  | some x => rfl
  | none =>
    simp only [mapFind_append]
    cases hk : mapFind k m with
    | some y => rfl
    | none => simp [hne]

/-! ## The classification loop -/

theorem scan_file (cmp : String → String → Ordering) {it : String} (rest : List String)
    (ad : List (String × String)) (w : World) (h : startsWithDash it = false) :
    scan cmp (it :: rest) ad w =
      scan cmp rest (mapInsert ("", "") ad) { w with files := setInsert cmp it w.files } := by
  rw [scan.eq_def]
  simp [h]

theorem scan_unknown (cmp : String → String → Ordering) {it : String} (rest : List String)
    (ad : List (String × String)) (w : World) (h1 : startsWithDash it = true)
    (h2 : (findArgument it).empty = true) :
    scan cmp (it :: rest) ad w =
      Scan.returned (logToConsole ("Unknown argument '" ++ it ++ "'") LogState.Error w) := by
  rw [scan.eq_def]
  simp [h1, h2]

theorem scan_flag (cmp : String → String → Ordering) {it : String} (rest : List String)
    (ad : List (String × String)) (w : World) (h1 : startsWithDash it = true)
    (h2 : (findArgument it).empty = false) (h3 : (findArgument it).takesParameter = false) :
    scan cmp (it :: rest) ad w = scan cmp rest (mapInsert (it, "") ad) w := by
  rw [scan.eq_def]
  simp [h1, h2, h3]

theorem scan_param_end (cmp : String → String → Ordering) {it : String}
    (ad : List (String × String)) (w : World) (h1 : startsWithDash it = true)
    (h2 : (findArgument it).empty = false) (h3 : (findArgument it).takesParameter = true) :
    scan cmp [it] ad w = Scan.fault Fault.readPastEnd := by
  rw [scan.eq_def]
  simp [h1, h2, h3]

theorem scan_param_dash (cmp : String → String → Ordering) {it next : String}
    (rest : List String) (ad : List (String × String)) (w : World)
    (h1 : startsWithDash it = true) (h2 : (findArgument it).empty = false)
    (h3 : (findArgument it).takesParameter = true) (h4 : startsWithDash next = true) :
    scan cmp (it :: next :: rest) ad w =
      Scan.returned
        (logToConsole ("Argument '" ++ it ++ "' requires a parameter.") LogState.Error w) := by
  rw [scan.eq_def]
  simp [h1, h2, h3, h4]

theorem scan_param (cmp : String → String → Ordering) {it next : String}
    (rest : List String) (ad : List (String × String)) (w : World)
    (h1 : startsWithDash it = true) (h2 : (findArgument it).empty = false)
    (h3 : (findArgument it).takesParameter = true) (h4 : startsWithDash next = false) :
    scan cmp (it :: next :: rest) ad w = scan cmp rest (mapInsert (it, next) ad) w := by
  rw [scan.eq_def]
  simp [h1, h2, h3, h4]

theorem scan_world (cmp : String → String → Ordering) (toks : List String)
    (ad : List (String × String)) (w : World) :
    (∀ ad1 w1, scan cmp toks ad w = Scan.completed ad1 w1 →
        w1.config = w.config ∧ w1.console = w.console ∧ w1.decoded = w.decoded) ∧
      (∀ r, scan cmp toks ad w = Scan.returned r →
        r.1 = false ∧ r.2.config = w.config ∧ r.2.decoded = w.decoded) := by
  induction toks, ad, w using scan.induct cmp with
  | case1 ad w =>
    simp [scan]
  | case2 it ad w h1 h2 h3 =>
    rw [scan_param_end cmp ad w h1 (by simpa using h2) h3]
    simp
  | case3 it ad w h1 h2 h3 q qs h4 =>
    rw [scan_param_dash cmp qs ad w h1 (by simpa using h2) h3 h4]
    simp [logToConsole]
  | case4 it ad w h1 h2 h3 q qs h4 ih =>
    rw [scan_param cmp qs ad w h1 (by simpa using h2) h3 (by simpa using h4)]
    exact ih
  | case5 it rest ad w h1 h2 h3 ih =>
    rw [scan_flag cmp rest ad w h1 (by simpa using h2) (by simpa using h3)]
    exact ih
  | case6 it rest ad w h1 h2 =>
    rw [scan_unknown cmp rest ad w h1 (by simpa using h2)]
    simp [logToConsole]
  | case7 it rest ad w h1 ih =>
    rw [scan_file cmp rest ad w (by simpa using h1)]
    exact ih

theorem scan_append (cmp : String → String → Ordering) (pre rest : List String)
    (ad : List (String × String)) (w : World) :
    ∀ ad1 w1, scan cmp pre ad w = Scan.completed ad1 w1 →
      scan cmp (pre ++ rest) ad w = scan cmp rest ad1 w1 := by
  induction pre, ad, w using scan.induct cmp with
  | case1 ad w =>
    intro ad1 w1 h
    simp only [scan, Scan.completed.injEq] at h
    obtain ⟨rfl, rfl⟩ := h
    rfl
  | case2 it ad w h1 h2 h3 =>
    intro ad1 w1 h
    rw [scan_param_end cmp ad w h1 (by simpa using h2) h3] at h
    cases h
  | case3 it ad w h1 h2 h3 q qs h4 =>
    intro ad1 w1 h
    rw [scan_param_dash cmp qs ad w h1 (by simpa using h2) h3 h4] at h
    cases h
  | case4 it ad w h1 h2 h3 q qs h4 ih =>
    intro ad1 w1 h
    rw [scan_param cmp qs ad w h1 (by simpa using h2) h3 (by simpa using h4)] at h
    rw [List.cons_append, List.cons_append,
      scan_param cmp (qs ++ rest) ad w h1 (by simpa using h2) h3 (by simpa using h4)]
    exact ih ad1 w1 h
  | case5 it tl ad w h1 h2 h3 ih =>
    intro ad1 w1 h
    rw [scan_flag cmp tl ad w h1 (by simpa using h2) (by simpa using h3)] at h
    rw [List.cons_append,
      scan_flag cmp (tl ++ rest) ad w h1 (by simpa using h2) (by simpa using h3)]
    exact ih ad1 w1 h
  | case6 it tl ad w h1 h2 =>
    intro ad1 w1 h
    rw [scan_unknown cmp tl ad w h1 (by simpa using h2)] at h
    cases h
  | case7 it tl ad w h1 ih =>
    intro ad1 w1 h
    rw [scan_file cmp tl ad w (by simpa using h1)] at h
    rw [List.cons_append, scan_file cmp (tl ++ rest) ad w (by simpa using h1)]
    exact ih ad1 w1 h

theorem scan_keeps (cmp : String → String → Ordering) (toks : List String)
    (ad : List (String × String)) (w : World) (k v : String) :
    ∀ ad1 w1, scan cmp toks ad w = Scan.completed ad1 w1 → mapFind k ad = some v →
      mapFind k ad1 = some v := by
  induction toks, ad, w using scan.induct cmp with
  | case1 ad w =>
    intro ad1 w1 h hk
    simp only [scan, Scan.completed.injEq] at h
    obtain ⟨rfl, rfl⟩ := h
    exact hk
  | case2 it ad w h1 h2 h3 =>
    intro ad1 w1 h
    rw [scan_param_end cmp ad w h1 (by simpa using h2) h3] at h
    cases h
  | case3 it ad w h1 h2 h3 q qs h4 =>
    intro ad1 w1 h
    rw [scan_param_dash cmp qs ad w h1 (by simpa using h2) h3 h4] at h
    cases h
  | case4 it ad w h1 h2 h3 q qs h4 ih =>
    intro ad1 w1 h hk
    rw [scan_param cmp qs ad w h1 (by simpa using h2) h3 (by simpa using h4)] at h
    exact ih ad1 w1 h (mapFind_mapInsert_some _ hk)
  | case5 it tl ad w h1 h2 h3 ih =>
    intro ad1 w1 h hk
    rw [scan_flag cmp tl ad w h1 (by simpa using h2) (by simpa using h3)] at h
    exact ih ad1 w1 h (mapFind_mapInsert_some _ hk)
  | case6 it tl ad w h1 h2 =>
    intro ad1 w1 h
    rw [scan_unknown cmp tl ad w h1 (by simpa using h2)] at h
    cases h
  | case7 it tl ad w h1 ih =>
    intro ad1 w1 h hk
    rw [scan_file cmp tl ad w (by simpa using h1)] at h
    exact ih ad1 w1 h (mapFind_mapInsert_some _ hk)

theorem scan_absent (cmp : String → String → Ordering) (toks : List String)
    (ad : List (String × String)) (w : World) (k : String) (hk0 : k ≠ "") :
    ∀ ad1 w1, scan cmp toks ad w = Scan.completed ad1 w1 → mapFind k ad = none →
      k ∉ toks → mapFind k ad1 = none := by
  induction toks, ad, w using scan.induct cmp with
  | case1 ad w =>
    intro ad1 w1 h hk _
    simp only [scan, Scan.completed.injEq] at h
    obtain ⟨rfl, rfl⟩ := h
    exact hk
  | case2 it ad w h1 h2 h3 =>
    intro ad1 w1 h
    rw [scan_param_end cmp ad w h1 (by simpa using h2) h3] at h
    cases h
  | case3 it ad w h1 h2 h3 q qs h4 =>
    intro ad1 w1 h
    rw [scan_param_dash cmp qs ad w h1 (by simpa using h2) h3 h4] at h
    cases h
  | case4 it ad w h1 h2 h3 q qs h4 ih =>
    intro ad1 w1 h hk hmem
    rw [scan_param cmp qs ad w h1 (by simpa using h2) h3 (by simpa using h4)] at h
    simp only [List.mem_cons, not_or] at hmem
    refine ih ad1 w1 h ?_ hmem.2.2
    rw [mapFind_mapInsert_ne (it, q) (fun e => hmem.1 e.symm)]
    exact hk
  | case5 it tl ad w h1 h2 h3 ih =>
    intro ad1 w1 h hk hmem
    rw [scan_flag cmp tl ad w h1 (by simpa using h2) (by simpa using h3)] at h
    simp only [List.mem_cons, not_or] at hmem
    refine ih ad1 w1 h ?_ hmem.2
    rw [mapFind_mapInsert_ne (it, "") (fun e => hmem.1 e.symm)]
    exact hk
  | case6 it tl ad w h1 h2 =>
    intro ad1 w1 h
    rw [scan_unknown cmp tl ad w h1 (by simpa using h2)] at h
    cases h
  | case7 it tl ad w h1 ih =>
    intro ad1 w1 h hk hmem
    rw [scan_file cmp tl ad w (by simpa using h1)] at h
    simp only [List.mem_cons, not_or] at hmem
    refine ih ad1 w1 h ?_ hmem.2
    rw [mapFind_mapInsert_ne ("", "") (fun e => hk0 e.symm)]
    exact hk

theorem mapFind_mapInsert_self (a : String × String) (m : List (String × String)) :
    ∃ v, mapFind a.1 (mapInsert a m) = some v := by
  cases h : mapFind a.1 m with
  | some x => exact ⟨x, mapFind_mapInsert_some a h⟩
  | none => exact ⟨a.2, mapFind_mapInsert_new h⟩

theorem scan_present (cmp : String → String → Ordering) (toks : List String)
    (ad : List (String × String)) (w : World) (t : String) (ht : startsWithDash t = true) :
    ∀ ad1 w1, scan cmp toks ad w = Scan.completed ad1 w1 → t ∈ toks →
      ∃ v, mapFind t ad1 = some v := by
  induction toks, ad, w using scan.induct cmp with
  | case1 ad w =>
    intro ad1 w1 _ hmem
    cases hmem
  | case2 it ad w h1 h2 h3 =>
    intro ad1 w1 h
    rw [scan_param_end cmp ad w h1 (by simpa using h2) h3] at h
    cases h
  | case3 it ad w h1 h2 h3 q qs h4 =>
    intro ad1 w1 h
    rw [scan_param_dash cmp qs ad w h1 (by simpa using h2) h3 h4] at h
    cases h
  | case4 it ad w h1 h2 h3 q qs h4 ih =>
    intro ad1 w1 h hmem
    rw [scan_param cmp qs ad w h1 (by simpa using h2) h3 (by simpa using h4)] at h
    simp only [List.mem_cons] at hmem
    rcases hmem with rfl | rfl | hmem
    · obtain ⟨v, hv⟩ := mapFind_mapInsert_self (t, q) ad
      exact ⟨v, scan_keeps cmp qs _ w t v ad1 w1 h hv⟩
    · exact absurd ht h4
    · exact ih ad1 w1 h hmem
  | case5 it tl ad w h1 h2 h3 ih =>
    intro ad1 w1 h hmem
    rw [scan_flag cmp tl ad w h1 (by simpa using h2) (by simpa using h3)] at h
    simp only [List.mem_cons] at hmem
    rcases hmem with rfl | hmem
    · obtain ⟨v, hv⟩ := mapFind_mapInsert_self (t, "") ad
      exact ⟨v, scan_keeps cmp tl _ w t v ad1 w1 h hv⟩
    · exact ih ad1 w1 h hmem
  | case6 it tl ad w h1 h2 =>
    intro ad1 w1 h
    rw [scan_unknown cmp tl ad w h1 (by simpa using h2)] at h
    cases h
  | case7 it tl ad w h1 ih =>
    intro ad1 w1 h hmem
    rw [scan_file cmp tl ad w (by simpa using h1)] at h
    simp only [List.mem_cons] at hmem
    rcases hmem with rfl | hmem
    · exact absurd ht h1
    · exact ih ad1 w1 h hmem

theorem scan_rejects (cmp : String → String → Ordering) (toks : List String)
    (ad : List (String × String)) (w : World) (t : String) (ht : startsWithDash t = true)
    (hu : (findArgument t).empty = true) :
    t ∈ toks → ∃ r, scan cmp toks ad w = Scan.returned r := by
  induction toks, ad, w using scan.induct cmp with
  | case1 ad w =>
    intro hmem
    cases hmem
  | case2 it ad w h1 h2 h3 =>
    intro hmem
    simp only [List.mem_singleton] at hmem
    subst hmem
    simp [hu] at h2
  | case3 it ad w h1 h2 h3 q qs h4 =>
    intro _
    exact ⟨_, scan_param_dash cmp qs ad w h1 (by simpa using h2) h3 h4⟩
  | case4 it ad w h1 h2 h3 q qs h4 ih =>
    intro hmem
    rw [scan_param cmp qs ad w h1 (by simpa using h2) h3 (by simpa using h4)]
    simp only [List.mem_cons] at hmem
    rcases hmem with rfl | rfl | hmem
    · simp [hu] at h2
    · exact absurd ht h4
    · exact ih hmem
  | case5 it tl ad w h1 h2 h3 ih =>
    intro hmem
    rw [scan_flag cmp tl ad w h1 (by simpa using h2) (by simpa using h3)]
    simp only [List.mem_cons] at hmem
    rcases hmem with rfl | hmem
    · simp [hu] at h2
    · exact ih hmem
  | case6 it tl ad w h1 h2 =>
    intro _
    exact ⟨_, scan_unknown cmp tl ad w h1 (by simpa using h2)⟩
  | case7 it tl ad w h1 ih =>
    intro hmem
    rw [scan_file cmp tl ad w (by simpa using h1)]
    simp only [List.mem_cons] at hmem
    rcases hmem with rfl | hmem
    · exact absurd ht h1
    · exact ih hmem

theorem scan_formatFree (cmp : String → String → Ordering) (pre rest : List String)
    (h1 : "--format" ∉ pre) (h2 : "-f" ∉ pre) :
    ∀ (ad : List (String × String)) (w : World) ad2 w2,
      scan cmp (pre ++ rest) ad w = Scan.completed ad2 w2 →
      ∃ ad1 w1, scan cmp pre ad w = Scan.completed ad1 w1 ∧
        scan cmp rest ad1 w1 = Scan.completed ad2 w2 := by
  induction pre with
  | nil =>
    intro ad w ad2 w2 h
    exact ⟨ad, w, rfl, h⟩
  | cons t tl ih =>
    intro ad w ad2 w2 h
    simp only [List.mem_cons, not_or] at h1 h2
    have htake : (findArgument t).takesParameter = false := by
      cases hb : (findArgument t).takesParameter with
      | false => rfl
      | true =>
        rcases (findArgument_takes_iff t).mp hb with e | e
        · exact absurd e.symm h1.1
        · exact absurd e.symm h2.1
    rw [List.cons_append] at h
    cases hd : startsWithDash t with
    | false =>
      rw [scan_file cmp (tl ++ rest) ad w hd] at h
      obtain ⟨ad1, w1, ha, hb⟩ := ih h1.2 h2.2 _ _ ad2 w2 h
      exact ⟨ad1, w1, by rw [scan_file cmp tl ad w hd]; exact ha, hb⟩
    | true =>
      cases he : (findArgument t).empty with
      | true =>
        rw [scan_unknown cmp (tl ++ rest) ad w hd he] at h
        cases h
      | false =>
        rw [scan_flag cmp (tl ++ rest) ad w hd he htake] at h
        obtain ⟨ad1, w1, ha, hb⟩ := ih h1.2 h2.2 _ _ ad2 w2 h
        exact ⟨ad1, w1, by rw [scan_flag cmp tl ad w hd he htake]; exact ha, hb⟩

theorem isFormat_facts {F : String} (hF : F = "--format" ∨ F = "-f") :
    startsWithDash F = true ∧ (findArgument F).empty = false ∧
      (findArgument F).takesParameter = true ∧ F ≠ "" := by
  have hd : startsWithDash F = true := by
    rcases hF with rfl | rfl
    · exact startsWithDash_format
    · exact startsWithDash_f
  refine ⟨hd, ?_, (findArgument_takes_iff F).mpr hF, startsWithDash_ne_empty hd⟩
  exact (findArgument_empty_iff F).mpr (by tauto)

/-- Scanning `F v` with `F` a format spelling in flag position: when the scan
completes, `v` does not start with `-`, and the scan goes on after `v` with
`(F, v)` inserted. -/
theorem scan_format_step (cmp : String → String → Ordering) {F : String}
    (hF : F = "--format" ∨ F = "-f") (v : String) (rest : List String)
    (ad : List (String × String)) (w : World) ad2 w2
    (h : scan cmp (F :: v :: rest) ad w = Scan.completed ad2 w2) :
    startsWithDash v = false ∧
      scan cmp rest (mapInsert (F, v) ad) w = Scan.completed ad2 w2 := by
  obtain ⟨hd, he, ht, _⟩ := isFormat_facts hF
  cases hv : startsWithDash v with
  | true =>
    rw [scan_param_dash cmp rest ad w hd he ht hv] at h
    cases h
  | false =>
    rw [scan_param cmp rest ad w hd he ht hv] at h
    exact ⟨rfl, h⟩

/-! ## The validation after the loop -/

theorem applyFormat_toStdout (v : String) (w : World) :
    (applyFormat v w).config.toStdout = w.config.toStdout ∧
      (applyFormat v w).files = w.files ∧ (applyFormat v w).decoded = w.decoded := by
  unfold applyFormat
  split_ifs <;> simp [logToConsole]

theorem applyFormat_selects {v : String} {f : Format} (h : Selects v f) (w : World) :
    (applyFormat v w).config.format = f ∧ (applyFormat v w).console = w.console := by
  unfold applyFormat
  rcases h with ⟨h1, rfl⟩ | ⟨h1 | h1, rfl⟩
  · simp [h1]
  · by_cases h0 : upper v = "OGG"
    · rw [h0] at h1
      exact absurd h1 (by decide)
    · simp [h0, h1]
  · have h0 : upper v ≠ "OGG" := by
      rw [h1]
      decide
    have h2 : upper v ≠ "WAV" := by
      rw [h1]
      decide
    simp [h0, h2, h1]

theorem applyFormat_unknown {v : String} (h1 : upper v ≠ "OGG") (h2 : upper v ≠ "WAV")
    (h3 : upper v ≠ "FLAC") (w : World) :
    applyFormat v w =
      { w with console := w.console ++
          [LogCall.message ("Unknown format type '" ++ v ++ "'; Resorting to OGG")
            LogState.Warning] } := by
  unfold applyFormat
  simp [h1, h2, h3, logToConsole]

theorem upper_ne_empty {v s : String} (h : upper v = s) (hs : s ≠ "") : v ≠ "" := by
  intro h0
  rw [h0] at h
  exact hs (h.symm.trans (by decide))

theorem Selects.ne_empty {v : String} {f : Format} (h : Selects v f) : v ≠ "" := by
  rcases h with ⟨h1, _⟩ | ⟨h1 | h1, _⟩
  · exact upper_ne_empty h1 (by decide)
  · exact upper_ne_empty h1 (by decide)
  · exact upper_ne_empty h1 (by decide)

theorem isEmpty_eq_false {v : String} (h : v ≠ "") : v.isEmpty = false := by
  cases hb : v.isEmpty with
  | false => rfl
  | true => exact absurd ((String.isEmpty_iff v).mp hb) h

/-- The format loop looks up `--format`, then `-f`. -/
theorem formatLoop_eq (ad : List (String × String)) (w : World) :
    formatLoop ad argFormat.keyMatches w =
      formatLoop ad ["-f"] (formatLoop ad ["--format"] w) := by
  simp only [argFormat, formatLoop]
  cases mapFind "--format" ad with
  | none => rfl
  | some s =>
    by_cases hs : s.isEmpty = true
    · simp [hs]
    · simp [hs]

theorem formatLoop_single_none {ad : List (String × String)} {k : String}
    (h : mapFind k ad = none) (w : World) : formatLoop ad [k] w = w := by
  simp [formatLoop, h]

theorem formatLoop_single_some {ad : List (String × String)} {k v : String}
    (h : mapFind k ad = some v) (hv : v ≠ "") (w : World) :
    formatLoop ad [k] w = applyFormat v w := by
  simp [formatLoop, h, isEmpty_eq_false hv]

theorem formatLoop_single_frame (ad : List (String × String)) (k : String) (w : World) :
    (formatLoop ad [k] w).config.toStdout = w.config.toStdout ∧
      (formatLoop ad [k] w).files = w.files ∧ (formatLoop ad [k] w).decoded = w.decoded := by
  simp only [formatLoop]
  cases mapFind k ad with
  | none => simp
  | some s =>
    by_cases hs : s.isEmpty = true
    · simp [hs]
    · simpa [hs] using applyFormat_toStdout s w

theorem formatLoop_frame (ad : List (String × String)) (w : World) :
    (formatLoop ad argFormat.keyMatches w).config.toStdout = w.config.toStdout ∧
      (formatLoop ad argFormat.keyMatches w).files = w.files ∧
      (formatLoop ad argFormat.keyMatches w).decoded = w.decoded := by
  rw [formatLoop_eq]
  obtain ⟨a1, a2, a3⟩ := formatLoop_single_frame ad "--format" w
  obtain ⟨b1, b2, b3⟩ := formatLoop_single_frame ad "-f" (formatLoop ad ["--format"] w)
  exact ⟨b1.trans a1, b2.trans a2, b3.trans a3⟩

theorem helpFound_false {ad : List (String × String)} (h1 : mapFind "--help" ad = none)
    (h2 : mapFind "-h" ad = none) : helpFound ad argHelp.keyMatches = false := by
  simp [argHelp, helpFound, h1, h2]

theorem helpFound_true {ad : List (String × String)} {k v : String}
    (hk : k = "--help" ∨ k = "-h") (h : mapFind k ad = some v) :
    helpFound ad argHelp.keyMatches = true := by
  rcases hk with rfl | rfl
  · simp [argHelp, helpFound, h]
  · simp only [argHelp, helpFound, h]
    cases mapFind "--help" ad <;> rfl

theorem stdoutLoop_none {ad : List (String × String)} (h : mapFind "--stdout" ad = none)
    (w : World) : stdoutLoop ad argStdout.keyMatches w = Except.ok w := by
  simp [argStdout, stdoutLoop, h]

theorem stdoutLoop_some {ad : List (String × String)} {v : String}
    (h : mapFind "--stdout" ad = some v) (w : World) :
    stdoutLoop ad argStdout.keyMatches w =
      if w.files.length > 1 then
        Except.error
          (logToConsole "Standard output cannot be used when rendering multiple files."
            LogState.Error w)
      else Except.ok { w with config := { w.config with toStdout := true } } := by
  simp [argStdout, stdoutLoop, h]

/-- A validation that returns true went through the format loop, from a state
that differs from the one after the classification loop at most in
`toStdout`. -/
theorem validate_true {ad : List (String × String)} {w w' : World}
    (h : validate ad w = (true, w')) :
    ∃ w3, w' = formatLoop ad argFormat.keyMatches w3 ∧ w3.config.format = w.config.format ∧
      w3.console = w.console ∧ w3.files = w.files ∧ w3.decoded = w.decoded := by
  unfold validate at h
  by_cases hh : helpFound ad argHelp.keyMatches = true
  · simp [hh, logUsage] at h
  · simp only [hh] at h
    cases hs : mapFind "--stdout" ad with
    | none =>
      rw [stdoutLoop_none hs] at h
      simp only [Bool.false_eq_true, if_false, Prod.mk.injEq, true_and] at h
      exact ⟨w, h.symm, rfl, rfl, rfl, rfl⟩
    | some v =>
      rw [stdoutLoop_some hs] at h
      by_cases hl : w.files.length > 1
      · simp [hl, logToConsole] at h
      · simp only [hl, Bool.false_eq_true, if_false, Prod.mk.injEq, true_and] at h
        exact ⟨_, h.symm, rfl, rfl, rfl, rfl⟩

/-- A validation that returns false leaves `config` and the decoded paths as
they were. -/
theorem validate_false {ad : List (String × String)} {w w' : World}
    (h : validate ad w = (false, w')) :
    w'.config = w.config ∧ w'.decoded = w.decoded ∧ w'.files = w.files := by
  unfold validate at h
  by_cases hh : helpFound ad argHelp.keyMatches = true
  · simp only [hh, if_true, logUsage, Prod.mk.injEq, true_and] at h
    subst h
    exact ⟨rfl, rfl, rfl⟩
  · simp only [hh] at h
    cases hs : mapFind "--stdout" ad with
    | none =>
      rw [stdoutLoop_none hs] at h
      simp at h
    | some v =>
      rw [stdoutLoop_some hs] at h
      by_cases hl : w.files.length > 1
      · simp only [hl, if_true, logToConsole, Bool.false_eq_true, if_false, Prod.mk.injEq] at h
        obtain ⟨_, rfl⟩ := h
        exact ⟨rfl, rfl, rfl⟩
      · simp [hl] at h

theorem parseArguments_true {cmp : String → String → Ordering} {toks : List String}
    {w w' : World} (h : parseArguments cmp toks w = Except.ok (true, w')) :
    ∃ ad w1, scan cmp toks [] w = Scan.completed ad w1 ∧ validate ad w1 = (true, w') := by
  unfold parseArguments at h
  cases hs : scan cmp toks [] w with
  | completed ad w1 =>
    rw [hs] at h
    simp only [Except.ok.injEq] at h
    exact ⟨ad, w1, rfl, h⟩
  | returned r =>
    rw [hs] at h
    simp only [Except.ok.injEq] at h
    have := ((scan_world cmp toks [] w).2 r hs).1
    rw [h] at this
    cases this
  | fault f =>
    rw [hs] at h
    cases h

theorem parseArguments_completed {cmp : String → String → Ordering} {toks : List String}
    {w : World} {ad : List (String × String)} {w1 : World}
    (h : scan cmp toks [] w = Scan.completed ad w1) :
    parseArguments cmp toks w = Except.ok (validate ad w1) := by
  unfold parseArguments
  rw [h]

/-- The format loop when only the spelling `F` is a key of `argData`. -/
theorem formatLoop_only {ad : List (String × String)} {F G v : String}
    (hFG : (F = "--format" ∧ G = "-f") ∨ (F = "-f" ∧ G = "--format"))
    (hF : mapFind F ad = some v) (hG : mapFind G ad = none) (hv : v ≠ "") (w : World) :
    formatLoop ad argFormat.keyMatches w = applyFormat v w := by
  rw [formatLoop_eq]
  rcases hFG with ⟨rfl, rfl⟩ | ⟨rfl, rfl⟩
  · rw [formatLoop_single_none hG, formatLoop_single_some hF hv]
  · rw [formatLoop_single_none hG, formatLoop_single_some hF hv]

/-- The format loop when `-f` is a key of `argData`: its value is applied
last. -/
theorem formatLoop_dashf {ad : List (String × String)} {v : String}
    (hF : mapFind "-f" ad = some v) (hv : v ≠ "") (w : World) :
    formatLoop ad argFormat.keyMatches w = applyFormat v (formatLoop ad ["--format"] w) := by
  rw [formatLoop_eq, formatLoop_single_some hF hv]

/-- The entries of `argData` for the two format spellings after a completed
loop over `pre ++ F :: v :: rest`, when no format spelling occurs in `pre` and
the other spelling `G` does not occur in `rest`. -/
theorem lookup_only (cmp : String → String → Ordering) (pre rest : List String)
    (F G v : String) (w : World) (ad : List (String × String)) (w1 : World)
    (hFG : (F = "--format" ∧ G = "-f") ∨ (F = "-f" ∧ G = "--format"))
    (hpre1 : "--format" ∉ pre) (hpre2 : "-f" ∉ pre) (hGrest : G ∉ rest)
    (hscan : scan cmp (pre ++ F :: v :: rest) [] w = Scan.completed ad w1) :
    mapFind F ad = some v ∧ mapFind G ad = none ∧ startsWithDash v = false := by
  have hF : F = "--format" ∨ F = "-f" := by tauto
  have hG : G = "--format" ∨ G = "-f" := by tauto
  have hGF : G ≠ F := by
    rcases hFG with ⟨rfl, rfl⟩ | ⟨rfl, rfl⟩ <;> decide
  have hFpre : F ∉ pre := by
    rcases hF with rfl | rfl
    · exact hpre1
    · exact hpre2
  have hGpre : G ∉ pre := by
    rcases hG with rfl | rfl
    · exact hpre1
    · exact hpre2
  obtain ⟨ad0, w0, hp, hr⟩ := scan_formatFree cmp pre (F :: v :: rest) hpre1 hpre2 [] w ad w1 hscan
  obtain ⟨hv, hr'⟩ := scan_format_step cmp hF v rest ad0 w0 ad w1 hr
  have hF0 : mapFind F ad0 = none :=
    scan_absent cmp pre [] w F (isFormat_facts hF).2.2.2 ad0 w0 hp rfl hFpre
  refine ⟨scan_keeps cmp rest _ w0 F v ad w1 hr' (mapFind_mapInsert_new hF0), ?_, hv⟩
  refine scan_absent cmp _ [] w G (isFormat_facts hG).2.2.2 ad w1 hscan rfl ?_
  simp only [List.mem_append, List.mem_cons, not_or]
  refine ⟨hGpre, hGF, ?_, hGrest⟩
  intro e
  rw [← e, (isFormat_facts hG).1] at hv
  cases hv

/-! ## C1: a repeated format spelling -/

/-- C1, counterexample: resolving `--format wav --format ogg` from the default
configuration succeeds with the output format WAV, not OGG. -/
theorem repeated_format_yields_wav :
    parseArguments comparePlain ["--format", "wav", "--format", "ogg"] World.initial =
      Except.ok (true,
        { World.initial with config := { format := Format.WAV, toStdout := false } }) := by
  rfl

/-- C1, amended: the value of the first occurrence of a format spelling wins.
When the spelling `F` stands in flag position with the recognised value `v1`,
no format spelling occurs before it and the other spelling `G` occurs nowhere,
a resolution that succeeds sets the format `v1` selects, whatever occurrences
of `F` with other values follow in `rest` (`std::map::insert` keeps the entry
that is already there). -/
theorem first_format_value_wins (cmp : String → String → Ordering) (pre rest : List String)
    (F G v1 : String) (f : Format) (w w' : World)
    (hFG : (F = "--format" ∧ G = "-f") ∨ (F = "-f" ∧ G = "--format"))
    (hpre1 : "--format" ∉ pre) (hpre2 : "-f" ∉ pre) (hGrest : G ∉ rest)
    (hsel : Selects v1 f)
    (hres : parseArguments cmp (pre ++ F :: v1 :: rest) w = Except.ok (true, w')) :
    w'.config.format = f := by
  obtain ⟨ad, w1, hscan, hval⟩ := parseArguments_true hres
  obtain ⟨hF, hG, _⟩ := lookup_only cmp pre rest F G v1 w ad w1 hFG hpre1 hpre2 hGrest hscan
  obtain ⟨w3, rfl, _⟩ := validate_true hval
  rw [formatLoop_only hFG hF hG hsel.ne_empty]
  exact (applyFormat_selects hsel w3).1

/-- C1, instance of the amended property: in `--format wav --format ogg` the
first value, `wav`, selects the format. -/
theorem first_format_value_wins_witness :
    ∃ w', parseArguments comparePlain ([] ++ "--format" :: "wav" :: ["--format", "ogg"])
        World.initial = Except.ok (true, w') ∧ w'.config.format = Format.WAV :=
  ⟨{ World.initial with config := { format := Format.WAV, toStdout := false } }, rfl,
   first_format_value_wins comparePlain [] ["--format", "ogg"] "--format" "-f" "wav" Format.WAV
     World.initial _ (Or.inl ⟨rfl, rfl⟩) (by simp) (by simp) (by decide)
     (Or.inr ⟨Or.inl (by decide), rfl⟩) rfl⟩

/-! ## The tokenizer -/

theorem tokenize_append (a b : List String) : tokenize (a ++ b) = tokenize a ++ tokenize b := by
  induction a with
  | nil => rfl
  | cons x xs ih => simp [tokenize, ih]

theorem getlines_word_space (word cs : List Char) (hw : ∀ c ∈ word, c ≠ ' ') :
    ∀ cur, getlines (word ++ ' ' :: cs) cur = String.mk (cur ++ word) :: getlines cs [] := by
  induction word with
  | nil =>
    intro cur
    simp [getlines]
  | cons c word ih =>
    intro cur
    have hc : c ≠ ' ' := hw c (List.mem_cons_self c word)
    rw [List.cons_append, getlines]
    simp only [hc, if_false]
    rw [ih (fun d hd => hw d (List.mem_cons_of_mem c hd))]
    simp

theorem getlines_word (word : List Char) (hw : ∀ c ∈ word, c ≠ ' ') :
    ∀ cur, cur ++ word ≠ [] → getlines word cur = [String.mk (cur ++ word)] := by
  induction word with
  | nil =>
    intro cur hne
    simp only [List.append_nil] at hne
    simp [getlines, hne]
  | cons c word ih =>
    intro cur _
    have hc : c ≠ ' ' := hw c (List.mem_cons_self c word)
    rw [getlines]
    simp only [hc, if_false]
    rw [ih (fun d hd => hw d (List.mem_cons_of_mem c hd)) (cur ++ [c]) (by simp)]
    simp

theorem replaceEquals_append (a b : List Char) :
    replaceEquals (a ++ b) = replaceEquals a ++ replaceEquals b := by
  simp [replaceEquals]

theorem format_spelling_chars {F : String} (hF : F = "--format" ∨ F = "-f") :
    replaceEquals F.data = F.data ∧ (∀ c ∈ F.data, c ≠ ' ') ∧ F.data ≠ [] := by
  rcases hF with rfl | rfl <;> decide

theorem splitArgument_spelling {F : String} (hF : F = "--format" ∨ F = "-f") :
    splitArgument F = [F] := by
  obtain ⟨h1, h2, h3⟩ := format_spelling_chars hF
  unfold splitArgument
  rw [h1, getlines_word F.data h2 [] (by simpa using h3)]
  simp

theorem splitArgument_equals {F : String} (hF : F = "--format" ∨ F = "-f") (X : String) :
    splitArgument (F ++ "=" ++ X) = F :: splitArgument X := by
  obtain ⟨h1, h2, _⟩ := format_spelling_chars hF
  unfold splitArgument
  have hd : (F ++ "=" ++ X).data = F.data ++ '=' :: X.data := by
    simp [String.data_append]
  rw [hd, replaceEquals_append, h1]
  have hr : replaceEquals ('=' :: X.data) = ' ' :: replaceEquals X.data := by
    simp [replaceEquals]
  rw [hr, getlines_word_space F.data _ h2 []]
  simp

/-! ## C2: `F=X` and `F X` -/

/-- C2: for a format spelling `F` and any value `X`, the raw argument `F=X`
and the two raw arguments `F`, `X` give the same tokens, at any place in the
command line; hence resolution and the whole run give the same result (the
same `config`, the same `files`) for both invocations. -/
theorem equals_sign_same_tokens (env : Env) (pre post : List String) (F X : String) (w : World)
    (hF : F = "--format" ∨ F = "-f") :
    tokenize (pre ++ (F ++ "=" ++ X) :: post) = tokenize (pre ++ F :: X :: post) ∧
      parseArguments env.pathCompare (tokenize (pre ++ (F ++ "=" ++ X) :: post)) w =
        parseArguments env.pathCompare (tokenize (pre ++ F :: X :: post)) w ∧
      main env (pre ++ (F ++ "=" ++ X) :: post) w = main env (pre ++ F :: X :: post) w := by
  have ht : tokenize (pre ++ (F ++ "=" ++ X) :: post) = tokenize (pre ++ F :: X :: post) := by
    rw [tokenize_append, tokenize_append]
    simp only [tokenize, splitArgument_equals hF, splitArgument_spelling hF]
    simp
  refine ⟨ht, by rw [ht], ?_⟩
  cases pre with
  | nil =>
    simp only [List.nil_append] at ht ⊢
    simp only [main, ht]
  | cons p ps =>
    simp only [List.cons_append] at ht ⊢
    simp only [main, ht]

/-- C2, instance: `--format=wav` against `--format wav`, before a file. -/
theorem equals_sign_same_tokens_witness :
    tokenize ([] ++ ("--format" ++ "=" ++ "wav") :: ["a.ptcop"]) =
        tokenize ([] ++ "--format" :: "wav" :: ["a.ptcop"]) ∧
      parseArguments Env.sample.pathCompare
          (tokenize ([] ++ ("--format" ++ "=" ++ "wav") :: ["a.ptcop"])) World.initial =
        parseArguments Env.sample.pathCompare
          (tokenize ([] ++ "--format" :: "wav" :: ["a.ptcop"])) World.initial ∧
      main Env.sample ([] ++ ("--format" ++ "=" ++ "wav") :: ["a.ptcop"]) World.initial =
        main Env.sample ([] ++ "--format" :: "wav" :: ["a.ptcop"]) World.initial :=
  equals_sign_same_tokens Env.sample [] ["a.ptcop"] "--format" "wav" World.initial (Or.inl rfl)

/-! ## C3: `--stdout` and the number of files -/

/-- C3: when the classification loop completes on a token list that contains
`--stdout` and no help flag, resolution fails with the error "Standard output
cannot be used when rendering multiple files." exactly when the file set holds
more than one path, and otherwise succeeds with `toStdout` set (`w1.files` is
the file set the loop has built). -/
theorem stdout_conflict_iff (cmp : String → String → Ordering) (toks : List String)
    (w : World) (ad : List (String × String)) (w1 : World)
    (hscan : scan cmp toks [] w = Scan.completed ad w1)
    (hstd : "--stdout" ∈ toks) (hh1 : "--help" ∉ toks) (hh2 : "-h" ∉ toks) :
    (1 < w1.files.length →
        parseArguments cmp toks w =
          Except.ok (false,
            { w1 with console := w1.console ++
                [LogCall.message "Standard output cannot be used when rendering multiple files."
                  LogState.Error] })) ∧
      (¬ 1 < w1.files.length →
        ∃ w2, parseArguments cmp toks w = Except.ok (true, w2) ∧
          w2.config.toStdout = true ∧ w2.files = w1.files) := by
  obtain ⟨v, hv⟩ := scan_present cmp toks [] w "--stdout" (by decide) ad w1 hscan hstd
  have hn1 := scan_absent cmp toks [] w "--help" (by decide) ad w1 hscan rfl hh1
  have hn2 := scan_absent cmp toks [] w "-h" (by decide) ad w1 hscan rfl hh2
  rw [parseArguments_completed hscan]
  unfold validate
  rw [helpFound_false hn1 hn2, stdoutLoop_some hv]
  constructor
  · intro hl
    simp [hl, logToConsole]
  · intro hl
    simp only [Bool.false_eq_true, if_false, gt_iff_lt, hl]
    refine ⟨_, rfl, ?_, ?_⟩
    · rw [(formatLoop_frame ad _).1]
    · rw [(formatLoop_frame ad _).2.1]

/-- C3, instances: `--stdout` with the two files `a`, `b` fails with the
conflict error; `--stdout` with the sole file `only.ptcop` succeeds. -/
theorem stdout_conflict_iff_witness :
    parseArguments comparePlain ["b", "--stdout", "a"] World.initial =
        Except.ok (false,
          { World.initial with
            files := ["a", "b"],
            console :=
              [LogCall.message "Standard output cannot be used when rendering multiple files."
                LogState.Error] }) ∧
      ∃ w2, parseArguments comparePlain ["only.ptcop", "--stdout"] World.initial =
          Except.ok (true, w2) ∧
        w2.config.toStdout = true ∧ w2.files = ["only.ptcop"] :=
  ⟨(stdout_conflict_iff comparePlain ["b", "--stdout", "a"] World.initial
      [("", ""), ("--stdout", "")] { World.initial with files := ["a", "b"] } rfl
      (by decide) (by decide) (by decide)).1 (by decide),
   (stdout_conflict_iff comparePlain ["only.ptcop", "--stdout"] World.initial
      [("", ""), ("--stdout", "")] { World.initial with files := ["only.ptcop"] } rfl
      (by decide) (by decide) (by decide)).2 (by decide)⟩

/-! ## C4: an unknown flag -/

theorem main_of_returned (env : Env) (argv : List String) (w : World) (r : Bool × World)
    (hne : argv ≠ [])
    (h : scan env.pathCompare (tokenize argv) [] w = Scan.returned r) :
    parseArguments env.pathCompare (tokenize argv) w = Except.ok (false, r.2) ∧
      main env argv w = Except.ok (0, r.2) ∧ r.2.config = w.config ∧
      r.2.decoded = w.decoded := by
  obtain ⟨h1, h2, h3⟩ := (scan_world env.pathCompare (tokenize argv) [] w).2 r h
  have hp : parseArguments env.pathCompare (tokenize argv) w = Except.ok (false, r.2) := by
    unfold parseArguments
    rw [h, ← h1]
  refine ⟨hp, ?_, h2, h3⟩
  cases argv with
  | nil => exact absurd rfl hne
  | cons a as =>
    simp only [main, hp]

/-- C4: when some token starts with `-` and is none of `--help`, `-h`,
`--stdout`, `--format`, `-f`, resolution returns false with `config`
untouched, whatever else the command line holds, and the run ends without
decoding a file. -/
theorem unknown_flag_fails (env : Env) (argv : List String) (t : String) (w : World)
    (ht : t ∈ tokenize argv) (hd : startsWithDash t = true)
    (hu : t ≠ "--help" ∧ t ≠ "-h" ∧ t ≠ "--stdout" ∧ t ≠ "--format" ∧ t ≠ "-f") :
    ∃ w', parseArguments env.pathCompare (tokenize argv) w = Except.ok (false, w') ∧
      main env argv w = Except.ok (0, w') ∧ w'.config = w.config ∧
      w'.decoded = w.decoded := by
  have he : (findArgument t).empty = true := by
    cases hb : (findArgument t).empty with
    | true => rfl
    | false =>
      have := (findArgument_empty_iff t).mp hb
      tauto
  have hne : argv ≠ [] := by
    rintro rfl
    cases ht
  obtain ⟨r, hr⟩ := scan_rejects env.pathCompare (tokenize argv) [] w t hd he ht
  exact ⟨r.2, main_of_returned env argv w r hne hr⟩

/-- C4, instance: `a.ptcop --bogus b.ptcop --stdout`. -/
theorem unknown_flag_fails_witness :
    ∃ w', parseArguments Env.sample.pathCompare
          (tokenize ["a.ptcop", "--bogus", "b.ptcop", "--stdout"]) World.initial =
        Except.ok (false, w') ∧
      main Env.sample ["a.ptcop", "--bogus", "b.ptcop", "--stdout"] World.initial =
        Except.ok (0, w') ∧
      w'.config = World.initial.config ∧ w'.decoded = World.initial.decoded :=
  unknown_flag_fails Env.sample ["a.ptcop", "--bogus", "b.ptcop", "--stdout"] "--bogus"
    World.initial (by decide) (by decide) (by decide)

/-! ## C5: the help flag -/

/-- C5, counterexample: `--help --bogus` does not end in the help outcome. The
loop returns at `--bogus` with the "Unknown argument" error before the help
flag is looked up, and the usage text is not printed. -/
theorem help_then_unknown_flag :
    parseArguments comparePlain ["--help", "--bogus"] World.initial =
      Except.ok (false,
        { World.initial with
          console := [LogCall.message "Unknown argument '--bogus'" LogState.Error] }) := by
  rfl

theorem main_of_completed (env : Env) (argv : List String) (w : World)
    (ad : List (String × String)) (w1 : World) (hne : argv ≠ [])
    (h : scan env.pathCompare (tokenize argv) [] w = Scan.completed ad w1) :
    main env argv w =
      match validate ad w1 with
      | (false, w2) => Except.ok (0, w2)
      | (true, w2) =>
        match runAll env w2.files w2 with
        | Except.error f => Except.error f
        | Except.ok w3 => Except.ok (0, w3) := by
  cases argv with
  | nil => exact absurd rfl hne
  | cons a as =>
    simp only [main, parseArguments_completed h]
    rcases validate ad w1 with ⟨b, w2⟩
    cases b <;> rfl

/-- C5, amended: when the classification loop completes (no unknown flag, no
format flag without its value) and `--help` or `-h` is among the tokens, the
run prints the usage text and ends with status 0: nothing but the usage record
is logged, `config` is unchanged, and no file is decoded, whatever other flags
and file paths are present. -/
theorem help_short_circuits (env : Env) (argv : List String) (h : String) (w : World)
    (ad : List (String × String)) (w1 : World)
    (hh : h = "--help" ∨ h = "-h") (hmem : h ∈ tokenize argv)
    (hscan : scan env.pathCompare (tokenize argv) [] w = Scan.completed ad w1) :
    main env argv w =
      Except.ok (0, { w with files := w1.files, console := w.console ++ [LogCall.usage] }) := by
  have hd : startsWithDash h = true := by
    rcases hh with rfl | rfl <;> decide
  have hne : argv ≠ [] := by
    rintro rfl
    cases hmem
  obtain ⟨v, hv⟩ := scan_present env.pathCompare (tokenize argv) [] w h hd ad w1 hscan hmem
  obtain ⟨c1, c2, c3⟩ := (scan_world env.pathCompare (tokenize argv) [] w).1 ad w1 hscan
  rw [main_of_completed env argv w ad w1 hne hscan]
  unfold validate
  rw [helpFound_true hh hv]
  simp only [if_true, logUsage, ← c1, ← c2, ← c3]

/-- C5, instance: `b.ptcop -h --stdout a.ptcop --format wav`. -/
theorem help_short_circuits_witness :
    main Env.sample ["b.ptcop", "-h", "--stdout", "a.ptcop", "--format=wav"] World.initial =
      Except.ok (0,
        { World.initial with
          files := ["a.ptcop", "b.ptcop"],
          console := World.initial.console ++ [LogCall.usage] }) :=
  help_short_circuits Env.sample ["b.ptcop", "-h", "--stdout", "a.ptcop", "--format=wav"] "-h"
    World.initial [("", ""), ("-h", ""), ("--stdout", ""), ("--format", "wav")]
    { World.initial with files := ["a.ptcop", "b.ptcop"] } (Or.inr rfl) (by decide) rfl

/-! ## C6: a format flag as the last token -/

/-- C6: when the loop reaches `--format` or `-f` in flag position and that is
the last token, `parseArguments` does not report a missing parameter: the guard
`if (it != args.end()) ++it;` moves `it` to `args.end()`, and the test that
follows dereferences it. -/
theorem format_flag_last_reads_past_end (cmp : String → String → Ordering)
    (pre : List String) (F : String) (w : World) (ad1 : List (String × String)) (w1 : World)
    (hF : F = "--format" ∨ F = "-f")
    (hpre : scan cmp pre [] w = Scan.completed ad1 w1) :
    parseArguments cmp (pre ++ [F]) w = Except.error Fault.readPastEnd := by
  obtain ⟨hd, he, ht, _⟩ := isFormat_facts hF
  unfold parseArguments
  rw [scan_append cmp pre [F] [] w ad1 w1 hpre, scan_param_end cmp ad1 w1 hd he ht]

/-- C6, instance: `x.ptcop --format`. -/
theorem format_flag_last_reads_past_end_witness :
    parseArguments comparePlain (["x.ptcop"] ++ ["--format"]) World.initial =
      Except.error Fault.readPastEnd :=
  format_flag_last_reads_past_end comparePlain ["x.ptcop"] "--format" World.initial
    [("", "")] { World.initial with files := ["x.ptcop"] } (Or.inl rfl) rfl

/-! ## C7: the token after a format flag -/

/-- C7: when the loop reaches the format spelling `F` in flag position (the
loop over the tokens `pre` before it completes), then (1) if the next token
starts with `-`, resolution fails with "Argument 'F' requires a parameter.",
naming `F` as typed, whatever that next token is; (2) if it does not, the loop
inserts `(F, next)` and goes on with the tokens after `next`: `next` is
neither looked up as a flag nor added to `files`. -/
theorem format_flag_next_token (cmp : String → String → Ordering) (pre rest : List String)
    (F next : String) (w : World) (ad1 : List (String × String)) (w1 : World)
    (hF : F = "--format" ∨ F = "-f")
    (hpre : scan cmp pre [] w = Scan.completed ad1 w1) :
    (startsWithDash next = true →
        parseArguments cmp (pre ++ F :: next :: rest) w =
          Except.ok (false,
            { w1 with console := w1.console ++
                [LogCall.message ("Argument '" ++ F ++ "' requires a parameter.")
                  LogState.Error] })) ∧
      (startsWithDash next = false →
        scan cmp (pre ++ F :: next :: rest) [] w =
          scan cmp rest (mapInsert (F, next) ad1) w1) := by
  obtain ⟨hd, he, ht, _⟩ := isFormat_facts hF
  constructor
  · intro hn
    unfold parseArguments
    rw [scan_append cmp pre _ [] w ad1 w1 hpre, scan_param_dash cmp rest ad1 w1 hd he ht hn]
    simp [logToConsole]
  · intro hn
    rw [scan_append cmp pre _ [] w ad1 w1 hpre, scan_param cmp rest ad1 w1 hd he ht hn]

/-- C7, instances: `a.ptcop -f --stdout` fails naming `-f`, although
`--stdout` is a recognised flag; in `a.ptcop -f wav b.ptcop` the value `wav`
is consumed and the loop goes on at `b.ptcop`. -/
theorem format_flag_next_token_witness :
    parseArguments comparePlain (["a.ptcop"] ++ "-f" :: "--stdout" :: []) World.initial =
        Except.ok (false,
          { ({ World.initial with files := ["a.ptcop"] } : World) with
            console := World.initial.console ++
              [LogCall.message ("Argument '" ++ "-f" ++ "' requires a parameter.")
                LogState.Error] }) ∧
      scan comparePlain (["a.ptcop"] ++ "-f" :: "wav" :: ["b.ptcop"]) [] World.initial =
        scan comparePlain ["b.ptcop"] (mapInsert ("-f", "wav") [("", "")])
          { World.initial with files := ["a.ptcop"] } :=
  ⟨(format_flag_next_token comparePlain ["a.ptcop"] [] "-f" "--stdout" World.initial
      [("", "")] { World.initial with files := ["a.ptcop"] } (Or.inr rfl) rfl).1 (by decide),
   (format_flag_next_token comparePlain ["a.ptcop"] ["b.ptcop"] "-f" "wav" World.initial
      [("", "")] { World.initial with files := ["a.ptcop"] } (Or.inr rfl) rfl).2 (by decide)⟩

/-! ## C8: a command line without a file -/

/-- C8: the invocation `--stdout` supplies no input file path, and the run
ends with status 0 without any record on the console: the error "At least 1
.ptcop file is required." is not reported. The test `argc <= 1` that guards
this message looks at the number of arguments, not at the file set. -/
theorem stdout_alone_reports_nothing :
    main Env.sample ["--stdout"] World.initial =
      Except.ok (0,
        { World.initial with config := { format := Format.OGG, toStdout := true } }) := by
  rfl

/-! ## C9: an unrecognised format value -/

/-- C9: in `a.ptcop --format wav -f xyz`, resolved from the default
configuration, the value `xyz` of `-f` is not recognised and causes only the
warning, whose text says "Resorting to OGG"; the resulting format is WAV, the
one `--format` has set before, not OGG. -/
theorem unknown_format_keeps_earlier_format :
    parseArguments comparePlain ["a.ptcop", "--format", "wav", "-f", "xyz"] World.initial =
      Except.ok (true,
        { config := { format := Format.WAV, toStdout := false },
          files := ["a.ptcop"],
          console :=
            [LogCall.message "Unknown format type 'xyz'; Resorting to OGG" LogState.Warning],
          decoded := [] }) := by
  rfl

/-! ## C10: case-insensitive format values -/

/-- C10: in a token list whose only format flag is `F` with the value `v`, a
resolution that succeeds sets the format OGG when the upper-cased `v` is
"OGG", and WAV when it is "WAV". -/
theorem format_value_ignores_case (cmp : String → String → Ordering) (pre post : List String)
    (F G v : String) (w w' : World)
    (hFG : (F = "--format" ∧ G = "-f") ∨ (F = "-f" ∧ G = "--format"))
    (hpre1 : "--format" ∉ pre) (hpre2 : "-f" ∉ pre)
    (hpost1 : "--format" ∉ post) (hpost2 : "-f" ∉ post)
    (hres : parseArguments cmp (pre ++ F :: v :: post) w = Except.ok (true, w')) :
    (upper v = "OGG" → w'.config.format = Format.OGG) ∧
      (upper v = "WAV" → w'.config.format = Format.WAV) := by
  have hGpost : G ∉ post := by
    rcases hFG with ⟨_, rfl⟩ | ⟨_, rfl⟩
    · exact hpost2
    · exact hpost1
  obtain ⟨ad, w1, hscan, hval⟩ := parseArguments_true hres
  obtain ⟨hF, hG, _⟩ := lookup_only cmp pre post F G v w ad w1 hFG hpre1 hpre2 hGpost hscan
  obtain ⟨w3, rfl, _⟩ := validate_true hval
  constructor
  · intro hu
    have hsel : Selects v Format.OGG := Or.inl ⟨hu, rfl⟩
    rw [formatLoop_only hFG hF hG hsel.ne_empty]
    exact (applyFormat_selects hsel w3).1
  · intro hu
    have hsel : Selects v Format.WAV := Or.inr ⟨Or.inl hu, rfl⟩
    rw [formatLoop_only hFG hF hG hsel.ne_empty]
    exact (applyFormat_selects hsel w3).1

/-- C10, instance: `a.ptcop -f OgG --stdout` resolves to OGG from a
configuration whose format was WAV; `OGG`, `ogg` and `OgG` all upper-case to
"OGG". -/
theorem format_value_ignores_case_witness :
    (upper "OGG" = "OGG" ∧ upper "ogg" = "OGG" ∧ upper "OgG" = "OGG") ∧
      ∃ w', parseArguments comparePlain (["a.ptcop"] ++ "-f" :: "OgG" :: ["--stdout"])
          { World.initial with config := { format := Format.WAV, toStdout := false } } =
          Except.ok (true, w') ∧
        w'.config.format = Format.OGG :=
  ⟨by decide,
   { config := { format := Format.OGG, toStdout := true }, files := ["a.ptcop"],
     console := [], decoded := [] },
   rfl,
   (format_value_ignores_case comparePlain ["a.ptcop"] ["--stdout"] "-f" "--format" "OgG"
      { World.initial with config := { format := Format.WAV, toStdout := false } } _
      (Or.inr ⟨rfl, rfl⟩) (by decide) (by decide) (by decide) (by decide) rfl).1
     (by decide)⟩

/-! ## C11: the batch loop -/

theorem runFile_answered (env : Env) (it path : String) (present : Bool) (w : World)
    (ha : env.absolute it = some path) (he : env.pathExists it = some present) :
    runFile env it w =
      Except.ok
        { w with
          console := w.console ++ [fileRecord env it path present],
          decoded := w.decoded ++ (if present then [path] else []) } := by
  unfold runFile fileRecord
  rw [ha, he]
  cases present with
  | false => simp [logToConsole]
  | true =>
    simp only [if_true]
    generalize (decode env (env.answers path) path).2 = r
    cases r <;> simp [logToConsole]

/-- The batch loop on a file set on whose paths `absolute` and `exists` do not
throw (`path` and `present` are their answers): `decode` is called on exactly
the paths that exist, each once, made absolute, in the order of `files`; one
record per path is logged; a throwing `decode` does not keep a later path from
being decoded. -/
theorem runAll_answered (env : Env) (path : String → String) (present : String → Bool)
    (files : List String) (w : World)
    (h : ∀ it ∈ files, env.absolute it = some (path it) ∧
      env.pathExists it = some (present it)) :
    runAll env files w =
      Except.ok
        { w with
          console := w.console ++ files.map fun it => fileRecord env it (path it) (present it),
          decoded := w.decoded ++ (files.filter present).map path } := by
  induction files generalizing w with
  | nil => simp [runAll]
  | cons it its ih =>
    obtain ⟨ha, he⟩ := h it (List.mem_cons_self _ _)
    rw [runAll, runFile_answered env it (path it) (present it) w ha he]
    simp only
    rw [ih _ (fun x hx => h x (List.mem_cons_of_mem _ hx))]
    cases hp : present it <;> simp [List.filter_cons, hp]

/-- C11: the batch loop does not isolate every failure of a path. When
`std::filesystem::absolute` or `std::filesystem::exists` throws on the path
`it`, the exception is not caught (both calls stand outside the `try`, and the
handler catches a `std::string` only): the loop ends there, with `decode`
called on no further path, whatever paths `its` follow in the file set. -/
theorem batch_aborts_on_filesystem_error (env : Env) (it : String) (its : List String)
    (w : World) (h : env.absolute it = none ∨ env.pathExists it = none) :
    runAll env (it :: its) w = Except.error (Fault.uncaught w.decoded) := by
  rw [runAll]
  unfold runFile
  rcases h with h | h
  · simp [h]
  · rw [h]
    cases env.absolute it <;> rfl

/-- C11, instance: the raw arguments `a.ptcop` and `=` give the tokens
`a.ptcop` and the empty token, hence the file set with the empty path first;
`absolute` throws on the empty path, and the run ends before `a.ptcop` is
decoded. -/
theorem batch_aborts_on_filesystem_error_witness :
    tokenize ["a.ptcop", "="] = ["a.ptcop", ""] ∧
      main Env.sample ["a.ptcop", "="] World.initial = Except.error (Fault.uncaught []) ∧
      runAll Env.sample ("" :: ["a.ptcop"]) { World.initial with files := ["", "a.ptcop"] } =
        Except.error (Fault.uncaught []) :=
  ⟨by decide, rfl,
   batch_aborts_on_filesystem_error Env.sample "" ["a.ptcop"]
     { World.initial with files := ["", "a.ptcop"] } (Or.inl rfl)⟩

/-- A run of the batch loop in which the file system answers: with
`broken.ptcop` failing in the engine and `missing.ptcop` absent, the loop over
four paths decodes the three that exist, in order, and logs one record per
path. -/
theorem runAll_sample :
    runAll Env.sample ["a.ptcop", "broken.ptcop", "missing.ptcop", "z.ptcop"] World.initial =
      Except.ok
        { World.initial with
          console :=
            [LogCall.message "Successfully opened file a.ptcop, 64 bytes read." LogState.Info,
             LogCall.message "pxtone error 3" LogState.Error,
             LogCall.message "File missing.ptcop not found." LogState.Warning,
             LogCall.message "Successfully opened file z.ptcop, 64 bytes read."
               LogState.Info],
          decoded := ["a.ptcop", "broken.ptcop", "z.ptcop"] } := by
  rfl

/-! ## C12: the file set -/

theorem mem_setInsert (cmp : String → String → Ordering) (p x : String) (fs : List String) :
    x ∈ setInsert cmp p fs → x = p ∨ x ∈ fs := by
  induction fs with
  | nil =>
    intro h
    simp only [setInsert, List.mem_singleton] at h
    exact Or.inl h
  | cons q qs ih =>
    intro h
    rw [setInsert] at h
    cases hc : cmp p q with
    | lt =>
      rw [hc] at h
      simp only [List.mem_cons] at h ⊢
      tauto
    | eq =>
      rw [hc] at h
      exact Or.inr h
    | gt =>
      rw [hc] at h
      simp only [List.mem_cons] at h ⊢
      rcases h with h | h
      · tauto
      · rcases ih h with h | h <;> tauto

theorem setInsert_keeps (cmp : String → String → Ordering) (p x : String) (fs : List String) :
    x ∈ fs → x ∈ setInsert cmp p fs := by
  induction fs with
  | nil =>
    intro h
    cases h
  | cons q qs ih =>
    intro h
    rw [setInsert]
    cases hc : cmp p q with
    | lt => exact List.mem_cons_of_mem p h
    | eq => exact h
    | gt =>
      simp only [List.mem_cons] at h ⊢
      rcases h with h | h
      · exact Or.inl h
      · exact Or.inr (ih h)

theorem setInsert_holds (cmp : String → String → Ordering) (hrefl : ∀ a, cmp a a = Ordering.eq)
    (p : String) (fs : List String) : ∃ x ∈ setInsert cmp p fs, cmp p x = Ordering.eq := by
  induction fs with
  | nil => exact ⟨p, by simp [setInsert], hrefl p⟩
  | cons q qs ih =>
    rw [setInsert]
    cases hc : cmp p q with
    | lt => exact ⟨p, by simp, hrefl p⟩
    | eq => exact ⟨q, by simp, hc⟩
    | gt =>
      obtain ⟨x, hx, hpx⟩ := ih
      exact ⟨x, List.mem_cons_of_mem q hx, hpx⟩

theorem setInsert_sorted (cmp : String → String → Ordering)
    (hflip : ∀ a b, cmp a b = Ordering.gt → cmp b a = Ordering.lt)
    (htrans : ∀ a b c, cmp a b = Ordering.lt → cmp b c = Ordering.lt → cmp a c = Ordering.lt)
    (p : String) (fs : List String) (hs : fs.Pairwise fun a b => cmp a b = Ordering.lt) :
    (setInsert cmp p fs).Pairwise fun a b => cmp a b = Ordering.lt := by
  induction fs with
  | nil => simp [setInsert]
  | cons q qs ih =>
    rw [List.pairwise_cons] at hs
    rw [setInsert]
    cases hc : cmp p q with
    | lt =>
      refine List.pairwise_cons.mpr ⟨?_, List.pairwise_cons.mpr hs⟩
      intro x hx
      simp only [List.mem_cons] at hx
      rcases hx with rfl | hx
      · exact hc
      · exact htrans p q x hc (hs.1 x hx)
    | eq => exact List.pairwise_cons.mpr hs
    | gt =>
      refine List.pairwise_cons.mpr ⟨?_, ih hs.2⟩
      intro x hx
      rcases mem_setInsert cmp p x qs hx with rfl | hx
      · exact hflip _ _ hc
      · exact hs.1 x hx

theorem fileTokens_param {t : String} (h : t = "--format" ∨ t = "-f") (v : String)
    (rest : List String) : fileTokens (t :: v :: rest) = fileTokens rest := by
  rw [fileTokens]
  simp [h]

theorem fileTokens_flag {t : String} (h : ¬(t = "--format" ∨ t = "-f"))
    (hd : startsWithDash t = true) (rest : List String) :
    fileTokens (t :: rest) = fileTokens rest := by
  rw [fileTokens.eq_def]
  simp [h, hd]

theorem fileTokens_file {t : String} (hd : startsWithDash t = false) (rest : List String) :
    fileTokens (t :: rest) = t :: fileTokens rest := by
  have h : ¬(t = "--format" ∨ t = "-f") := by
    rintro (rfl | rfl)
    · exact absurd hd (by decide)
    · exact absurd hd (by decide)
  rw [fileTokens.eq_def]
  simp [h, hd]

/-- The file set after a completed loop: it keeps what it held, it gains
nothing but file tokens, it holds an equivalent of every file token, and it
stays strictly ascending. -/
theorem scan_files (cmp : String → String → Ordering) (hrefl : ∀ a, cmp a a = Ordering.eq)
    (hflip : ∀ a b, cmp a b = Ordering.gt → cmp b a = Ordering.lt)
    (htrans : ∀ a b c, cmp a b = Ordering.lt → cmp b c = Ordering.lt → cmp a c = Ordering.lt)
    (toks : List String) (ad : List (String × String)) (w : World) :
    ∀ ad1 w1, scan cmp toks ad w = Scan.completed ad1 w1 →
      (∀ p, p ∈ w.files → p ∈ w1.files) ∧
      (∀ p, p ∈ w1.files → p ∈ w.files ∨ p ∈ fileTokens toks) ∧
      (∀ t, t ∈ fileTokens toks → ∃ p ∈ w1.files, cmp t p = Ordering.eq) ∧
      ((w.files.Pairwise fun a b => cmp a b = Ordering.lt) →
        w1.files.Pairwise fun a b => cmp a b = Ordering.lt) := by
  induction toks, ad, w using scan.induct cmp with
  | case1 ad w =>
    intro ad1 w1 h
    simp only [scan, Scan.completed.injEq] at h
    obtain ⟨_, rfl⟩ := h
    simp [fileTokens]
  | case2 it ad w h1 h2 h3 =>
    intro ad1 w1 h
    rw [scan_param_end cmp ad w h1 (by simpa using h2) h3] at h
    cases h
  | case3 it ad w h1 h2 h3 q qs h4 =>
    intro ad1 w1 h
    rw [scan_param_dash cmp qs ad w h1 (by simpa using h2) h3 h4] at h
    cases h
  | case4 it ad w h1 h2 h3 q qs h4 ih =>
    intro ad1 w1 h
    rw [scan_param cmp qs ad w h1 (by simpa using h2) h3 (by simpa using h4)] at h
    rw [fileTokens_param ((findArgument_takes_iff it).mp h3)]
    exact ih ad1 w1 h
  | case5 it tl ad w h1 h2 h3 ih =>
    intro ad1 w1 h
    rw [scan_flag cmp tl ad w h1 (by simpa using h2) (by simpa using h3)] at h
    rw [fileTokens_flag (fun e => h3 ((findArgument_takes_iff it).mpr e)) h1]
    exact ih ad1 w1 h
  | case6 it tl ad w h1 h2 =>
    intro ad1 w1 h
    rw [scan_unknown cmp tl ad w h1 (by simpa using h2)] at h
    cases h
  | case7 it tl ad w h1 ih =>
    intro ad1 w1 h
    rw [scan_file cmp tl ad w (by simpa using h1)] at h
    rw [fileTokens_file (by simpa using h1)]
    obtain ⟨i1, i2, i3, i4⟩ := ih ad1 w1 h
    refine ⟨?_, ?_, ?_, ?_⟩
    · intro p hp
      exact i1 p (setInsert_keeps cmp it p w.files hp)
    · intro p hp
      rcases i2 p hp with hp | hp
      · rcases mem_setInsert cmp it p w.files hp with rfl | hp
        · exact Or.inr (List.mem_cons_self _ _)
        · exact Or.inl hp
      · exact Or.inr (List.mem_cons_of_mem it hp)
    · intro t ht
      simp only [List.mem_cons] at ht
      rcases ht with rfl | ht
      · obtain ⟨x, hx, hpx⟩ := setInsert_holds cmp hrefl t w.files
        exact ⟨x, i1 x hx, hpx⟩
      · exact i3 t ht
    · intro hs
      exact i4 (setInsert_sorted cmp hflip htrans it w.files hs)

theorem compareChars_refl (a : List Char) : compareChars a a = Ordering.eq := by
  induction a with
  | nil => rfl
  | cons x xs ih => simp [compareChars, ih]

theorem compareChars_flip (a b : List Char) :
    compareChars a b = Ordering.gt → compareChars b a = Ordering.lt := by
  induction a generalizing b with
  | nil =>
    cases b <;> simp [compareChars]
  | cons x xs ih =>
    cases b with
    | nil => simp [compareChars]
    | cons y ys =>
      simp only [compareChars]
      intro h
      by_cases h1 : x.toNat < y.toNat
      · simp [h1] at h
      · by_cases h2 : y.toNat < x.toNat
        · simp [h2]
        · simp only [h1, h2, if_false] at h ⊢
          exact ih ys h

theorem compareChars_trans (a b c : List Char) :
    compareChars a b = Ordering.lt → compareChars b c = Ordering.lt →
      compareChars a c = Ordering.lt := by
  induction a generalizing b c with
  | nil =>
    cases b with
    | nil => simp [compareChars]
    | cons y ys =>
      cases c <;> simp [compareChars]
  | cons x xs ih =>
    cases b with
    | nil => simp [compareChars]
    | cons y ys =>
      cases c with
      | nil => simp [compareChars]
      | cons z zs =>
        simp only [compareChars]
        intro h1 h2
        by_cases a1 : x.toNat < y.toNat
        · by_cases b1 : y.toNat < z.toNat
          · have : x.toNat < z.toNat := by omega
            simp [this]
          · by_cases b2 : z.toNat < y.toNat
            · simp [b1, b2] at h2
            · have : x.toNat < z.toNat := by omega
              simp [this]
        · by_cases a2 : y.toNat < x.toNat
          · simp [a1, a2] at h1
          · simp only [a1, a2, if_false] at h1
            by_cases b1 : y.toNat < z.toNat
            · have : x.toNat < z.toNat := by omega
              simp [this]
            · by_cases b2 : z.toNat < y.toNat
              · simp [b1, b2] at h2
              · simp only [b1, b2, if_false] at h2
                have e1 : ¬x.toNat < z.toNat := by omega
                have e2 : ¬z.toNat < x.toNat := by omega
                simp only [e1, e2, if_false]
                exact ih ys zs h1 h2

/-- C12: let the path ordering `cmp` be reflexive, antisymmetric in the sense
that `a > b` gives `b < a`, and transitive. When the classification loop
completes on `toks` from an empty file set, (1) every path of the resulting
file set is one of the file tokens of `toks`, the tokens in flag position that
do not start with `-` (so a token consumed as the value of `--format` or `-f`
is not added on that account); (2) every file token is in the set, up to the
equivalence of the ordering; (3) the set is strictly ascending, so that no
path occurs twice and the iteration order is that of the ordering, whatever
the order and the multiplicity of the tokens. -/
theorem file_set_is_the_file_tokens (cmp : String → String → Ordering) (toks : List String)
    (w : World) (ad : List (String × String)) (w1 : World)
    (hrefl : ∀ a, cmp a a = Ordering.eq)
    (hflip : ∀ a b, cmp a b = Ordering.gt → cmp b a = Ordering.lt)
    (htrans : ∀ a b c, cmp a b = Ordering.lt → cmp b c = Ordering.lt → cmp a c = Ordering.lt)
    (hw : w.files = [])
    (hscan : scan cmp toks [] w = Scan.completed ad w1) :
    (∀ p, p ∈ w1.files → p ∈ fileTokens toks) ∧
      (∀ t, t ∈ fileTokens toks → ∃ p ∈ w1.files, cmp t p = Ordering.eq) ∧
      (w1.files.Pairwise fun a b => cmp a b = Ordering.lt) := by
  obtain ⟨_, h2, h3, h4⟩ := scan_files cmp hrefl hflip htrans toks [] w ad w1 hscan
  refine ⟨?_, h3, h4 (by simp [hw])⟩
  intro p hp
  rcases h2 p hp with h | h
  · rw [hw] at h
    cases h
  · exact h

/-- C12, instance: in `b.ptcop a.ptcop -f wav b.ptcop --stdout` the file set
is `a.ptcop`, `b.ptcop`: the repeated path occurs once, the order is that of
the paths, and the value `wav` is not in the set. -/
theorem file_set_is_the_file_tokens_witness :
    fileTokens ["b.ptcop", "a.ptcop", "-f", "wav", "b.ptcop", "--stdout"] =
        ["b.ptcop", "a.ptcop", "b.ptcop"] ∧
      scan comparePlain ["b.ptcop", "a.ptcop", "-f", "wav", "b.ptcop", "--stdout"] []
          World.initial =
        Scan.completed [("", ""), ("-f", "wav"), ("--stdout", "")]
          { World.initial with files := ["a.ptcop", "b.ptcop"] } ∧
      ((∀ p, p ∈ ["a.ptcop", "b.ptcop"] →
          p ∈ fileTokens ["b.ptcop", "a.ptcop", "-f", "wav", "b.ptcop", "--stdout"]) ∧
        (∀ t, t ∈ fileTokens ["b.ptcop", "a.ptcop", "-f", "wav", "b.ptcop", "--stdout"] →
          ∃ p ∈ ["a.ptcop", "b.ptcop"], comparePlain t p = Ordering.eq) ∧
        (["a.ptcop", "b.ptcop"].Pairwise fun a b => comparePlain a b = Ordering.lt)) :=
  ⟨by decide, rfl,
   file_set_is_the_file_tokens comparePlain
     ["b.ptcop", "a.ptcop", "-f", "wav", "b.ptcop", "--stdout"] World.initial
     [("", ""), ("-f", "wav"), ("--stdout", "")]
     { World.initial with files := ["a.ptcop", "b.ptcop"] }
     (fun a => compareChars_refl a.data)
     (fun a b => compareChars_flip a.data b.data)
     (fun a b c => compareChars_trans a.data b.data c.data) rfl rfl⟩

/-! ## The decode pipeline -/

/-- The run of `decode` written out: the calls made and the resources still
held at each of its ten exits. -/
theorem decode_job (env : Env) (a : Answers) (file : String) :
    (decode env a file).1 =
      if a.fopenOk = false then { calls := [Call.fopen], held := [] }
      else if a.mallocOk = false then
        { calls := [Call.fopen, Call.fseek, Call.ftell, Call.malloc],
          held := [Resource.handle] }
      else if a.freadCount ≠ a.size then
        { calls := [Call.fopen, Call.fseek, Call.ftell, Call.malloc, Call.rewind, Call.fread],
          held := [Resource.handle, Resource.buffer] }
      else if a.initErr ≠ 0 then
        { calls := upTo Call.init fullRun, held := [Resource.buffer, Resource.engine] }
      else if a.qualityOk = false then
        { calls := upTo Call.setDestinationQuality fullRun,
          held := [Resource.buffer, Resource.engine] }
      else if a.memoryOk = false then
        { calls := upTo Call.setMemoryR fullRun, held := [Resource.buffer, Resource.engine] }
      else if a.readErr ≠ 0 then
        { calls := upTo Call.read fullRun, held := [Resource.buffer, Resource.engine] }
      else if a.tonesReadyErr ≠ 0 then
        { calls := upTo Call.tonesReady fullRun, held := [Resource.buffer, Resource.engine] }
      else if a.mooPreparationOk = false then
        { calls := upTo Call.mooPreparation fullRun,
          held := [Resource.buffer, Resource.engine] }
      else { calls := fullRun, held := [Resource.buffer, Resource.engine] } := by
  unfold decode
  by_cases h1 : a.fopenOk = false
  · simp [h1, Job.call]
  by_cases h2 : a.mallocOk = false
  · simp [h1, h2, Job.call, Job.acquire]
  by_cases h3 : a.freadCount ≠ a.size
  · simp [h1, h2, h3, Job.call, Job.acquire]
  by_cases h4 : a.initErr ≠ 0
  · simp [h1, h2, h3, h4, Job.call, Job.acquire, Job.release, upTo, fullRun]
  by_cases h5 : a.qualityOk = false
  · simp [h1, h2, h3, h4, h5, Job.call, Job.acquire, Job.release, upTo, fullRun]
  by_cases h6 : a.memoryOk = false
  · simp [h1, h2, h3, h4, h5, h6, Job.call, Job.acquire, Job.release, upTo, fullRun]
  by_cases h7 : a.readErr ≠ 0
  · simp [h1, h2, h3, h4, h5, h6, h7, Job.call, Job.acquire, Job.release, upTo, fullRun]
  by_cases h8 : a.tonesReadyErr ≠ 0
  · simp [h1, h2, h3, h4, h5, h6, h7, h8, Job.call, Job.acquire, Job.release, upTo, fullRun]
  by_cases h9 : a.mooPreparationOk = false
  · simp [h1, h2, h3, h4, h5, h6, h7, h8, h9, Job.call, Job.acquire, Job.release, upTo,
      fullRun]
  · simp [h1, h2, h3, h4, h5, h6, h7, h8, h9, Job.call, Job.acquire, Job.release, fullRun]

/-- Whether `decode` throws, by the first step that reports failure. -/
theorem decode_result (env : Env) (a : Answers) (file : String) :
    (firstFailure a = none → ∃ info, (decode env a file).2 = Except.ok info) ∧
      (∀ c, firstFailure a = some c → ∃ err, (decode env a file).2 = Except.error err) := by
  unfold decode firstFailure failures
  by_cases h1 : a.fopenOk = false
  · simp [h1]
  by_cases h2 : a.mallocOk = false
  · simp [h1, h2]
  by_cases h3 : a.freadCount ≠ a.size
  · simp [h1, h2, h3]
  by_cases h4 : a.initErr ≠ 0
  · simp [h1, h2, h3, h4]
  by_cases h5 : a.qualityOk = false
  · simp [h1, h2, h3, h4, h5]
  by_cases h6 : a.memoryOk = false
  · simp [h1, h2, h3, h4, h5, h6]
  by_cases h7 : a.readErr ≠ 0
  · simp [h1, h2, h3, h4, h5, h6, h7]
  by_cases h8 : a.tonesReadyErr ≠ 0
  · simp [h1, h2, h3, h4, h5, h6, h7, h8]
  by_cases h9 : a.mooPreparationOk = false
  · simp [h1, h2, h3, h4, h5, h6, h7, h8, h9]
  · simp [h1, h2, h3, h4, h5, h6, h7, h8, h9]

theorem decode_calls (env : Env) (a : Answers) (file : String) :
    (decode env a file).1.calls =
      match firstFailure a with
      | none => fullRun
      | some c => upTo c fullRun := by
  rw [decode_job]
  unfold firstFailure failures
  by_cases h1 : a.fopenOk = false
  · simp [h1, upTo, fullRun]
  by_cases h2 : a.mallocOk = false
  · simp [h1, h2, upTo, fullRun]
  by_cases h3 : a.freadCount ≠ a.size
  · simp [h1, h2, h3, upTo, fullRun]
  by_cases h4 : a.initErr ≠ 0
  · simp [h1, h2, h3, h4]
  by_cases h5 : a.qualityOk = false
  · simp [h1, h2, h3, h4, h5]
  by_cases h6 : a.memoryOk = false
  · simp [h1, h2, h3, h4, h5, h6]
  by_cases h7 : a.readErr ≠ 0
  · simp [h1, h2, h3, h4, h5, h6, h7]
  by_cases h8 : a.tonesReadyErr ≠ 0
  · simp [h1, h2, h3, h4, h5, h6, h7, h8]
  by_cases h9 : a.mooPreparationOk = false
  · simp [h1, h2, h3, h4, h5, h6, h7, h8, h9]
  · simp [h1, h2, h3, h4, h5, h6, h7, h8, h9]

/-! ## C13: rendering and encoding -/

theorem upTo_subset (c : Call) (order : List Call) : ∀ x, x ∈ upTo c order → x ∈ order := by
  induction order with
  | nil =>
    intro x hx
    cases hx
  | cons y ys ih =>
    intro x hx
    rw [upTo] at hx
    by_cases hy : y = c
    · simp only [hy, if_true, List.mem_singleton] at hx
      rw [hx, hy]
      exact List.mem_cons_self _ _
    · simp only [hy, if_false, List.mem_cons] at hx
      rcases hx with rfl | hx
      · exact List.mem_cons_self _ _
      · exact List.mem_cons_of_mem _ (ih x hx)

theorem decode_calls_subset (env : Env) (a : Answers) (file : String) :
    ∀ x, x ∈ (decode env a file).1.calls → x ∈ fullRun := by
  intro x hx
  rw [decode_calls] at hx
  cases hf : firstFailure a with
  | none =>
    rw [hf] at hx
    exact hx
  | some c =>
    rw [hf] at hx
    exact upTo_subset c fullRun x hx

/-- C13: whatever the calls of `decode` report, `decode` never pulls a block
of PCM samples from the engine and never hands one to an encoder; when every
step succeeds, its run is `fullRun`, which ends with the release of the event
list and the informational record. The function stops where the rendering
would begin (its last line is the comment `// now decode lol`). -/
theorem decode_never_renders (env : Env) (a : Answers) (file : String) :
    Call.moo ∉ (decode env a file).1.calls ∧ Call.encode ∉ (decode env a file).1.calls ∧
      (firstFailure a = none → (decode env a file).1.calls = fullRun) := by
  refine ⟨?_, ?_, ?_⟩
  · intro h
    exact absurd (decode_calls_subset env a file _ h) (by decide)
  · intro h
    exact absurd (decode_calls_subset env a file _ h) (by decide)
  · intro h
    rw [decode_calls, h]

/-! ## C16: the order of the steps of `decode` -/

/-- C16: `decode` makes its calls in the fixed order `fullRun` (open, size,
allocate, read and close the file; create and initialise the engine; set the
destination quality; bind the memory descriptor; read; `tones_ready`;
`moo_preparation`; release of the event list; the informational record). For
every combination of answers: if no step reports failure, the run is the
whole of `fullRun` and `decode` returns; if `c` is the first step that reports
failure, the run is `fullRun` cut after `c`, and `decode` throws. The
informational record is logged exactly when no step reports failure. -/
theorem decode_fails_fast (env : Env) (a : Answers) (file : String) :
    (firstFailure a = none →
        (decode env a file).1.calls = fullRun ∧
          ∃ info, (decode env a file).2 = Except.ok info) ∧
      (∀ c, firstFailure a = some c →
        (decode env a file).1.calls = upTo c fullRun ∧
          ∃ err, (decode env a file).2 = Except.error err) ∧
      (Call.logInfo ∈ (decode env a file).1.calls ↔ firstFailure a = none) := by
  refine ⟨?_, ?_, ?_⟩
  · intro h
    refine ⟨?_, (decode_result env a file).1 h⟩
    rw [decode_calls, h]
  · intro c h
    refine ⟨?_, (decode_result env a file).2 c h⟩
    rw [decode_calls, h]
  · rw [decode_job]
    unfold firstFailure failures
    by_cases h1 : a.fopenOk = false
    · simp [h1]
    by_cases h2 : a.mallocOk = false
    · simp [h1, h2]
    by_cases h3 : a.freadCount ≠ a.size
    · simp [h1, h2, h3]
    by_cases h4 : a.initErr ≠ 0
    · simp [h1, h2, h3, h4, upTo, fullRun]
    by_cases h5 : a.qualityOk = false
    · simp [h1, h2, h3, h4, h5, upTo, fullRun]
    by_cases h6 : a.memoryOk = false
    · simp [h1, h2, h3, h4, h5, h6, upTo, fullRun]
    by_cases h7 : a.readErr ≠ 0
    · simp [h1, h2, h3, h4, h5, h6, h7, upTo, fullRun]
    by_cases h8 : a.tonesReadyErr ≠ 0
    · simp [h1, h2, h3, h4, h5, h6, h7, h8, upTo, fullRun]
    by_cases h9 : a.mooPreparationOk = false
    · simp [h1, h2, h3, h4, h5, h6, h7, h8, h9, upTo, fullRun]
    · simp [h1, h2, h3, h4, h5, h6, h7, h8, h9, fullRun]

/-! ## C17: what `decode` leaves allocated -/

/-- C17: the resources `decode` still holds when it returns or throws. Nothing
is held only when `fopen` fails. A failing `malloc` or a short `fread` leaves
the file handle open; from `fclose` on, the buffer is held, and from
`new pxtnService()` on the engine too, on every exit, the normal return
included: the function has no `free` and no `delete`. -/
theorem decode_leaks (env : Env) (a : Answers) (file : String) :
    (decode env a file).1.held =
      if a.fopenOk = false then []
      else if a.mallocOk = false then [Resource.handle]
      else if a.freadCount ≠ a.size then [Resource.handle, Resource.buffer]
      else [Resource.buffer, Resource.engine] := by
  rw [decode_job]
  split_ifs <;> rfl

/-! ## C14: the value FLAC -/

/-- C14: in a token list whose only format flag is `F` with a value `v` whose
upper-casing is "FLAC", a resolution that succeeds sets the format WAV and
logs nothing: the value is treated as recognised, there is no "Unknown format
type" warning. -/
theorem flac_selects_wav (cmp : String → String → Ordering) (pre post : List String)
    (F G v : String) (w w' : World)
    (hFG : (F = "--format" ∧ G = "-f") ∨ (F = "-f" ∧ G = "--format"))
    (hpre1 : "--format" ∉ pre) (hpre2 : "-f" ∉ pre)
    (hpost1 : "--format" ∉ post) (hpost2 : "-f" ∉ post)
    (hv : upper v = "FLAC")
    (hres : parseArguments cmp (pre ++ F :: v :: post) w = Except.ok (true, w')) :
    w'.config.format = Format.WAV ∧ w'.console = w.console := by
  have hGpost : G ∉ post := by
    rcases hFG with ⟨_, rfl⟩ | ⟨_, rfl⟩
    · exact hpost2
    · exact hpost1
  obtain ⟨ad, w1, hscan, hval⟩ := parseArguments_true hres
  obtain ⟨hF, hG, _⟩ := lookup_only cmp pre post F G v w ad w1 hFG hpre1 hpre2 hGpost hscan
  obtain ⟨_, c2, _⟩ := (scan_world cmp _ [] w).1 ad w1 hscan
  obtain ⟨w3, rfl, _, e3, _⟩ := validate_true hval
  have hsel : Selects v Format.WAV := Or.inr ⟨Or.inr hv, rfl⟩
  rw [formatLoop_only hFG hF hG hsel.ne_empty]
  exact ⟨(applyFormat_selects hsel w3).1, ((applyFormat_selects hsel w3).2.trans e3).trans c2⟩

/-- C14, instance: `a.ptcop --format=Flac`, tokenized, resolves to WAV with an
empty console. -/
theorem flac_selects_wav_witness :
    tokenize ["a.ptcop", "--format=Flac"] = ["a.ptcop"] ++ "--format" :: "Flac" :: [] ∧
      ∃ w', parseArguments comparePlain (["a.ptcop"] ++ "--format" :: "Flac" :: [])
          World.initial = Except.ok (true, w') ∧
        w'.config.format = Format.WAV ∧ w'.console = World.initial.console :=
  ⟨by decide,
   { config := { format := Format.WAV, toStdout := false }, files := ["a.ptcop"],
     console := [], decoded := [] },
   rfl,
   flac_selects_wav comparePlain ["a.ptcop"] [] "--format" "-f" "Flac" World.initial _
     (Or.inl ⟨rfl, rfl⟩) (by decide) (by decide) (by decide) (by decide) (by decide) rfl⟩

/-! ## C15: the order of the validation -/

/-- C15: the validation looks for the help flag first. When the
classification loop completes and `--help` or `-h` is among the tokens,
`parseArguments` returns false after logging the usage text and nothing else,
with `config` as it was: no "Standard output cannot be used ..." error is
reported and `toStdout` is not set, however many files there are and whether
or not `--stdout` is present, and the format value is neither applied nor
warned about. -/
theorem help_precedes_stdout_and_format (cmp : String → String → Ordering)
    (toks : List String) (h : String) (w : World) (ad : List (String × String)) (w1 : World)
    (hh : h = "--help" ∨ h = "-h") (hmem : h ∈ toks)
    (hscan : scan cmp toks [] w = Scan.completed ad w1) :
    parseArguments cmp toks w =
      Except.ok (false,
        { w with files := w1.files, console := w.console ++ [LogCall.usage] }) := by
  have hd : startsWithDash h = true := by
    rcases hh with rfl | rfl <;> decide
  obtain ⟨v, hv⟩ := scan_present cmp toks [] w h hd ad w1 hscan hmem
  obtain ⟨c1, c2, c3⟩ := (scan_world cmp toks [] w).1 ad w1 hscan
  rw [parseArguments_completed hscan]
  unfold validate
  rw [helpFound_true hh hv]
  simp only [if_true, logUsage, ← c1, ← c2, ← c3]

/-- C15, instance: `--stdout b a --format xyz --help`, with two files, an
unrecognised format value and the help flag last. -/
theorem help_precedes_stdout_and_format_witness :
    parseArguments comparePlain ["--stdout", "b", "a", "--format", "xyz", "--help"]
        World.initial =
      Except.ok (false,
        { World.initial with
          files := ["a", "b"],
          console := World.initial.console ++ [LogCall.usage] }) :=
  help_precedes_stdout_and_format comparePlain
    ["--stdout", "b", "a", "--format", "xyz", "--help"] "--help" World.initial
    [("--stdout", ""), ("", ""), ("--format", "xyz"), ("--help", "")]
    { World.initial with files := ["a", "b"] } (Or.inl rfl) (by decide) rfl

/-! ## C18: `--format` together with `-f` -/

/-- C18: when both format spellings carry a value, the value of `-f` decides.
In `a ++ F :: v1 :: b ++ G :: v2 :: c`, with `F`, `G` the two spellings in
either order and no format spelling in `a` and `b`, a resolution that
succeeds sets the format selected by the value `vf` of `-f` (`v2` when `-f`
comes second, `v1` when it comes first): the format loop visits `--format`
before `-f`. -/
theorem dash_f_overrides_format (cmp : String → String → Ordering) (a b c : List String)
    (F G v1 v2 vf : String) (f : Format) (w w' : World)
    (hFG : (F = "--format" ∧ G = "-f" ∧ vf = v2) ∨ (F = "-f" ∧ G = "--format" ∧ vf = v1))
    (ha1 : "--format" ∉ a) (ha2 : "-f" ∉ a) (hb1 : "--format" ∉ b) (hb2 : "-f" ∉ b)
    (hsel : Selects vf f)
    (hres : parseArguments cmp (a ++ F :: v1 :: (b ++ G :: v2 :: c)) w =
      Except.ok (true, w')) :
    w'.config.format = f := by
  have hF : F = "--format" ∨ F = "-f" := by tauto
  have hG : G = "--format" ∨ G = "-f" := by tauto
  have hGF : G ≠ F := by
    rcases hFG with ⟨rfl, rfl, _⟩ | ⟨rfl, rfl, _⟩ <;> decide
  have hGa : G ∉ a := by
    rcases hG with rfl | rfl
    · exact ha1
    · exact ha2
  have hGb : G ∉ b := by
    rcases hG with rfl | rfl
    · exact hb1
    · exact hb2
  have hFa : F ∉ a := by
    rcases hF with rfl | rfl
    · exact ha1
    · exact ha2
  obtain ⟨ad, w1, hscan, hval⟩ := parseArguments_true hres
  obtain ⟨ad0, w0, hp, hr⟩ := scan_formatFree cmp a _ ha1 ha2 [] w ad w1 hscan
  obtain ⟨hv1, hr1⟩ := scan_format_step cmp hF v1 _ ad0 w0 ad w1 hr
  obtain ⟨ad2, w2, hq, hr2⟩ := scan_formatFree cmp b _ hb1 hb2 _ w0 ad w1 hr1
  obtain ⟨hv2, hr3⟩ := scan_format_step cmp hG v2 c ad2 w2 ad w1 hr2
  have hF0 : mapFind F ad0 = none :=
    scan_absent cmp a [] w F (isFormat_facts hF).2.2.2 ad0 w0 hp rfl hFa
  have hG0 : mapFind G ad0 = none :=
    scan_absent cmp a [] w G (isFormat_facts hG).2.2.2 ad0 w0 hp rfl hGa
  have hG1 : mapFind G (mapInsert (F, v1) ad0) = none := by
    rw [mapFind_mapInsert_ne (F, v1) (fun e => hGF e.symm)]
    exact hG0
  have hG2 : mapFind G ad2 = none :=
    scan_absent cmp b _ w0 G (isFormat_facts hG).2.2.2 ad2 w2 hq hG1 hGb
  have hFad : mapFind F ad = some v1 :=
    scan_keeps cmp c _ w2 F v1 ad w1 hr3
      (mapFind_mapInsert_some _
        (scan_keeps cmp b _ w0 F v1 ad2 w2 hq (mapFind_mapInsert_new hF0)))
  have hGad : mapFind G ad = some v2 :=
    scan_keeps cmp c _ w2 G v2 ad w1 hr3 (mapFind_mapInsert_new hG2)
  have hf : mapFind "-f" ad = some vf := by
    rcases hFG with ⟨_, rfl, rfl⟩ | ⟨rfl, _, rfl⟩
    · exact hGad
    · exact hFad
  obtain ⟨w3, rfl, _⟩ := validate_true hval
  rw [formatLoop_dashf hf hsel.ne_empty]
  exact (applyFormat_selects hsel _).1

/-- C18, instances: `-f wav x.ptcop --format ogg` and
`--format ogg x.ptcop -f wav` both resolve to WAV, the value of `-f`. -/
theorem dash_f_overrides_format_witness :
    (∃ w', parseArguments comparePlain ([] ++ "-f" :: "wav" :: (["x.ptcop"] ++
          "--format" :: "ogg" :: [])) World.initial = Except.ok (true, w') ∧
        w'.config.format = Format.WAV) ∧
      ∃ w', parseArguments comparePlain ([] ++ "--format" :: "ogg" :: (["x.ptcop"] ++
          "-f" :: "wav" :: [])) World.initial = Except.ok (true, w') ∧
        w'.config.format = Format.WAV :=
  ⟨⟨{ World.initial with
        config := { format := Format.WAV, toStdout := false }, files := ["x.ptcop"] }, rfl,
     dash_f_overrides_format comparePlain [] ["x.ptcop"] [] "-f" "--format" "wav" "ogg" "wav"
       Format.WAV World.initial _ (Or.inr ⟨rfl, rfl, rfl⟩) (by decide) (by decide)
       (by decide) (by decide) (Or.inr ⟨Or.inl (by decide), rfl⟩) rfl⟩,
   ⟨{ World.initial with
        config := { format := Format.WAV, toStdout := false }, files := ["x.ptcop"] }, rfl,
     dash_f_overrides_format comparePlain [] ["x.ptcop"] [] "--format" "-f" "ogg" "wav" "wav"
       Format.WAV World.initial _ (Or.inl ⟨rfl, rfl, rfl⟩) (by decide) (by decide)
       (by decide) (by decide) (Or.inr ⟨Or.inl (by decide), rfl⟩) rfl⟩⟩

/-! ## C19: what the tokenizer lets through -/

theorem replaceEquals_clean (cs : List Char) : ∀ c ∈ replaceEquals cs, c ≠ '=' := by
  intro c hc
  simp only [replaceEquals, List.mem_map] at hc
  obtain ⟨d, _, rfl⟩ := hc
  by_cases hd : d = '='
  · simp [hd]
  · simp [hd]

theorem filter_replaceEquals (cs : List Char) :
    (replaceEquals cs).filter (fun c => c != ' ') =
      cs.filter (fun c => c != '=' && c != ' ') := by
  induction cs with
  | nil => rfl
  | cons d ds ih =>
    have hcons : replaceEquals (d :: ds) = (if d = '=' then ' ' else d) :: replaceEquals ds := by
      simp [replaceEquals]
    rw [hcons]
    by_cases hd : d = '='
    · subst hd
      simp [List.filter_cons, ih]
    · by_cases hs : d = ' '
      · subst hs
        simp [List.filter_cons, ih]
      · simp [List.filter_cons, hd, hs, ih]

theorem getlines_clean (cs : List Char) (hcs : ∀ c ∈ cs, c ≠ '=') :
    ∀ cur, (∀ c ∈ cur, c ≠ '=' ∧ c ≠ ' ') →
      ∀ t ∈ getlines cs cur, ∀ c ∈ t.data, c ≠ '=' ∧ c ≠ ' ' := by
  induction cs with
  | nil =>
    intro cur hcur t ht c hc
    rw [getlines] at ht
    by_cases he : cur.isEmpty = true
    · simp [he] at ht
    · simp only [he, Bool.false_eq_true, if_false, List.mem_singleton] at ht
      subst ht
      exact hcur c hc
  | cons d ds ih =>
    intro cur hcur t ht c hc
    have hds : ∀ c ∈ ds, c ≠ '=' := fun c h => hcs c (List.mem_cons_of_mem d h)
    rw [getlines] at ht
    by_cases hd : d = ' '
    · simp only [hd, if_true, List.mem_cons] at ht
      rcases ht with rfl | ht
      · exact hcur c hc
      · exact ih hds [] (by simp) t ht c hc
    · simp only [hd, if_false] at ht
      refine ih hds (cur ++ [d]) ?_ t ht c hc
      intro x hx
      simp only [List.mem_append, List.mem_singleton] at hx
      rcases hx with hx | rfl
      · exact hcur x hx
      · exact ⟨hcs x (List.mem_cons_self _ _), hd⟩

theorem getlines_concat (cs : List Char) :
    ∀ cur, concatTokens (getlines cs cur) = cur ++ cs.filter (fun c => c != ' ') := by
  induction cs with
  | nil =>
    intro cur
    rw [getlines]
    cases cur with
    | nil => simp [concatTokens]
    | cons x xs => simp [concatTokens]
  | cons d ds ih =>
    intro cur
    rw [getlines]
    by_cases hd : d = ' '
    · simp [hd, concatTokens, ih]
    · simp [hd, ih, List.filter_cons]

theorem concatTokens_append (a b : List String) :
    concatTokens (a ++ b) = concatTokens a ++ concatTokens b := by
  induction a with
  | nil => rfl
  | cons x xs ih => simp [concatTokens, ih]

theorem scan_files_from (cmp : String → String → Ordering) (toks : List String)
    (ad : List (String × String)) (w : World) :
    ∀ ad1 w1, scan cmp toks ad w = Scan.completed ad1 w1 →
      ∀ p, p ∈ w1.files → p ∈ w.files ∨ p ∈ toks := by
  induction toks, ad, w using scan.induct cmp with
  | case1 ad w =>
    intro ad1 w1 h p hp
    simp only [scan, Scan.completed.injEq] at h
    obtain ⟨_, rfl⟩ := h
    exact Or.inl hp
  | case2 it ad w h1 h2 h3 =>
    intro ad1 w1 h
    rw [scan_param_end cmp ad w h1 (by simpa using h2) h3] at h
    cases h
  | case3 it ad w h1 h2 h3 q qs h4 =>
    intro ad1 w1 h
    rw [scan_param_dash cmp qs ad w h1 (by simpa using h2) h3 h4] at h
    cases h
  | case4 it ad w h1 h2 h3 q qs h4 ih =>
    intro ad1 w1 h p hp
    rw [scan_param cmp qs ad w h1 (by simpa using h2) h3 (by simpa using h4)] at h
    rcases ih ad1 w1 h p hp with hp | hp
    · exact Or.inl hp
    · exact Or.inr (List.mem_cons_of_mem _ (List.mem_cons_of_mem _ hp))
  | case5 it tl ad w h1 h2 h3 ih =>
    intro ad1 w1 h p hp
    rw [scan_flag cmp tl ad w h1 (by simpa using h2) (by simpa using h3)] at h
    rcases ih ad1 w1 h p hp with hp | hp
    · exact Or.inl hp
    · exact Or.inr (List.mem_cons_of_mem _ hp)
  | case6 it tl ad w h1 h2 =>
    intro ad1 w1 h
    rw [scan_unknown cmp tl ad w h1 (by simpa using h2)] at h
    cases h
  | case7 it tl ad w h1 ih =>
    intro ad1 w1 h p hp
    rw [scan_file cmp tl ad w (by simpa using h1)] at h
    rcases ih ad1 w1 h p hp with hp | hp
    · rcases mem_setInsert cmp it p w.files hp with rfl | hp
      · exact Or.inr (List.mem_cons_self _ _)
      · exact Or.inl hp
    · exact Or.inr (List.mem_cons_of_mem _ hp)

theorem tokenize_concat (argv : List String) :
    concatTokens (tokenize argv) =
      (concatTokens argv).filter (fun c => c != '=' && c != ' ') := by
  induction argv with
  | nil => rfl
  | cons x xs ih =>
    simp only [tokenize, concatTokens, concatTokens_append, List.filter_append]
    rw [ih]
    simp [splitArgument, getlines_concat, filter_replaceEquals]

/-- C19: for every list of raw arguments, (1) no token the tokenizer produces
contains `=` or a space; (2) the tokens, concatenated, are the raw arguments,
concatenated, with every `=` and every space removed; (3) consequently no
path that the classification loop, started with an empty file set, puts into
the file set contains `=` or a space. -/
theorem tokens_have_no_separator (argv : List String) :
    (∀ t ∈ tokenize argv, ∀ c ∈ t.data, c ≠ '=' ∧ c ≠ ' ') ∧
      concatTokens (tokenize argv) =
        (concatTokens argv).filter (fun c => c != '=' && c != ' ') ∧
      (∀ (cmp : String → String → Ordering) (w : World) ad w1, w.files = [] →
        scan cmp (tokenize argv) [] w = Scan.completed ad w1 →
        ∀ p ∈ w1.files, ∀ c ∈ p.data, c ≠ '=' ∧ c ≠ ' ') := by
  have h1 : ∀ t ∈ tokenize argv, ∀ c ∈ t.data, c ≠ '=' ∧ c ≠ ' ' := by
    induction argv with
    | nil =>
      intro t ht
      cases ht
    | cons x xs ih =>
      intro t ht
      simp only [tokenize, List.mem_append] at ht
      rcases ht with ht | ht
      · exact getlines_clean _ (replaceEquals_clean x.data) [] (by simp) t ht
      · exact ih t ht
  refine ⟨h1, tokenize_concat argv, ?_⟩
  intro cmp w ad w1 hw hscan p hp
  rcases scan_files_from cmp (tokenize argv) [] w ad w1 hscan p hp with h | h
  · rw [hw] at h
    cases h
  · exact h1 p h

/-- C19, instance: the raw arguments `my file.ptcop` and `--format=wav` give
the tokens `my`, `file.ptcop`, `--format`, `wav`. -/
theorem tokens_have_no_separator_witness :
    tokenize ["my file.ptcop", "--format=wav"] = ["my", "file.ptcop", "--format", "wav"] ∧
      ((∀ t ∈ tokenize ["my file.ptcop", "--format=wav"], ∀ c ∈ t.data, c ≠ '=' ∧ c ≠ ' ') ∧
        concatTokens (tokenize ["my file.ptcop", "--format=wav"]) =
          (concatTokens ["my file.ptcop", "--format=wav"]).filter
            (fun c => c != '=' && c != ' ') ∧
        (∀ (cmp : String → String → Ordering) (w : World) ad w1, w.files = [] →
          scan cmp (tokenize ["my file.ptcop", "--format=wav"]) [] w = Scan.completed ad w1 →
          ∀ p ∈ w1.files, ∀ c ∈ p.data, c ≠ '=' ∧ c ≠ ' ')) :=
  ⟨by decide, tokens_have_no_separator ["my file.ptcop", "--format=wav"]⟩

/-! ## C20: a failed resolution and `config` -/

/-- C20: for every token list and every initial state, when `parseArguments`
returns false (unknown argument, missing parameter, help, or the conflict of
`--stdout` with several files), `config` is exactly what it was before the
call: neither `format` nor `toStdout` has been assigned. -/
theorem failed_resolution_keeps_config (cmp : String → String → Ordering)
    (toks : List String) (w w' : World)
    (h : parseArguments cmp toks w = Except.ok (false, w')) :
    w'.config = w.config := by
  unfold parseArguments at h
  cases hs : scan cmp toks [] w with
  | completed ad w1 =>
    rw [hs] at h
    simp only [Except.ok.injEq] at h
    exact (validate_false h).1.trans ((scan_world cmp toks [] w).1 ad w1 hs).1
  | returned r =>
    rw [hs] at h
    simp only [Except.ok.injEq] at h
    have := ((scan_world cmp toks [] w).2 r hs).2.1
    rw [h] at this
    exact this
  | fault f =>
    rw [hs] at h
    cases h

/-- C20, instance: `--format wav --stdout a b` fails on the conflict, after the
format flag has been classified, and leaves the default configuration. -/
theorem failed_resolution_keeps_config_witness :
    ∃ w', parseArguments comparePlain ["--format", "wav", "--stdout", "a", "b"]
        World.initial = Except.ok (false, w') ∧
      w'.config = World.initial.config :=
  ⟨{ World.initial with
      files := ["a", "b"],
      console :=
        [LogCall.message "Standard output cannot be used when rendering multiple files."
          LogState.Error] },
   rfl,
   failed_resolution_keeps_config comparePlain ["--format", "wav", "--stdout", "a", "b"]
     World.initial _ rfl⟩

/-! ## A concrete run of `decode` -/

/-- C16, instance: when `read` is the first step to fail, the run stops after
`read`: `tones_ready`, `moo_preparation`, the release and the record are not
reached. -/
theorem decode_fails_fast_witness :
    firstFailure { Answers.sound 64 with readErr := 3 } = some Call.read ∧
      (decode Env.sample { Answers.sound 64 with readErr := 3 } "broken.ptcop").1.calls =
        [Call.fopen, Call.fseek, Call.ftell, Call.malloc, Call.rewind, Call.fread, Call.fclose,
         Call.newService, Call.init, Call.setDestinationQuality, Call.setMemoryR, Call.read] :=
  ⟨by decide,
   ((decode_fails_fast Env.sample { Answers.sound 64 with readErr := 3 }
      "broken.ptcop").2.1 Call.read (by decide)).1⟩

end PxtoneRenderer
